import Mathlib

/-!
Verification development for the Argus anti-phishing email aggregator
(Python backend under `backend/app`).

The Python modules relevant to the claims are shallowly embedded below:

* `app/utils/phishing/score_level_mapper.py`   → `ScoreLevelMapper` section
* `app/utils/phishing/composite_detector.py`   → `Composite` section
* `app/utils/phishing/url_detector.py`         → `LongUrl` section
* `app/services/sender_whitelist_service.py`
  and `app/services/url_whitelist_service.py`  → `Whitelist` section
* `app/crud/mailbox_crud.py`                   → `MailboxUpsert` section
* `app/services/email_account_service.py`      → `Sync` section
* `app/services/phishing_event_service.py`     → `Sse` section
* `app/crud/email_sync_crud.py`
  and `app/utils/imap/imap_flag_utils.py`      → `Persist` section
* `app/crud/email_crud.py`                     → `Pagination` section

Python strings are modelled as `List Char` (so that concrete string
computations reduce in the kernel), Python floats as `ℚ`, machine
integers as `ℤ`/`ℕ` (no overflow is reachable in the code paths
modelled), raised exceptions as `Except Unit`, and `None` as `Option`.
-/

namespace Argus

/-- Python strings, modelled as character lists. -/
abbrev Str := List Char

/-- Phishing danger level, from `app/entities/email_entity.py`
(`PhishingLevel`, values NORMAL / SUSPICIOUS / HIGH_RISK) and the
identical detector-side enum in
`app/utils/phishing/phishing_detector_interface.py`. -/
inductive PhishingLevel where
  | NORMAL
  | SUSPICIOUS
  | HIGH_RISK
deriving DecidableEq, Repr

/-- Detection status of a message.  Modelled from the spec: the
`PhishingStatus` enum (values PENDING / COMPLETED from spec §3) is
imported by `email_sync_crud.py` and `phishing_detection_service.py`
from `app/entities/email_entity.py`, but its declaration is not among
the provided sources. -/
inductive PhishingStatus where
  | PENDING
  | COMPLETED
deriving DecidableEq, Repr

/-! ## ScoreLevelMapper (`app/utils/phishing/score_level_mapper.py`)

`ScoreThresholds` defaults: `suspicious_threshold = 0.6`,
`high_risk_threshold = 0.8`.  All call sites in the repository use the
defaults, so the thresholds are inlined as the constants below. -/

/-- Default `ScoreThresholds.suspicious_threshold`. -/
def suspiciousThreshold : ℚ := 0.6

/-- Default `ScoreThresholds.high_risk_threshold`. -/
def highRiskThreshold : ℚ := 0.8

/-- `ScoreLevelMapper.normalize_score`: clamp the confidence score into
`[0, 1]`.  (The `None`/non-numeric fallback to `0.0` is not needed by
the claims; all modelled call sites pass a number.) -/
def normalize_score (score : ℚ) : ℚ :=
  max 0 (min 1 score)

/-- `ScoreLevelMapper.get_level`: map a confidence score to a danger
level using inclusive thresholds. -/
def get_level (score : ℚ) : PhishingLevel :=
  let normalized := normalize_score score
  if highRiskThreshold ≤ normalized then PhishingLevel.HIGH_RISK
  else if suspiciousThreshold ≤ normalized then PhishingLevel.SUSPICIOUS
  else PhishingLevel.NORMAL

/-- Python's built-in `round(x, n)` on our rational model of floats:
round half to even at `n` decimal digits.  (`round` in CPython rounds
the decimal value half-to-even; the concrete inputs used in the
theorems below are exact decimals, where float representation error
plays no role.) -/
def pyRound (n : ℕ) (x : ℚ) : ℚ :=
  let scale : ℚ := (10 : ℚ) ^ n
  let y := x * scale
  let f : ℤ := ⌊y⌋
  let frac := y - f
  let r : ℤ :=
    if frac < 1/2 then f
    else if 1/2 < frac then f + 1
    else if f % 2 = 0 then f else f + 1
  (r : ℚ) / scale

/-! ## Composite detector (`app/utils/phishing/composite_detector.py`)

`CompositePhishingDetector.detect` runs every sub-detector, collects
the results of those whose `detect` did not raise, and combines them by
taking the strictest level and the maximal score (rounded to two
decimals).  A sub-detector run is modelled as `Option PhishingResult`
(`none` = the `except Exception` branch was taken).  The human-readable
`reason` string is not modelled; no claim concerns it. -/

/-- Result of one detector run (level and score; see module comment
for the elided `reason`). -/
structure PhishingResult where
  level : PhishingLevel
  score : ℚ
deriving DecidableEq, Repr

/-- `CompositePhishingDetector._get_highest_level`: strictest level of
a list (priority HIGH_RISK > SUSPICIOUS > NORMAL). -/
def get_highest_level (levels : List PhishingLevel) : PhishingLevel :=
  if PhishingLevel.HIGH_RISK ∈ levels then PhishingLevel.HIGH_RISK
  else if PhishingLevel.SUSPICIOUS ∈ levels then PhishingLevel.SUSPICIOUS
  else PhishingLevel.NORMAL

/-- Python's `max` over a list of rationals.  Call sites guard against
the empty list (where CPython would raise); `0` is a junk value. -/
def pyMax : List ℚ → ℚ
  | [] => 0
  | x :: xs => xs.foldl max x

/-- `CompositePhishingDetector.detect`, as a function of the outcomes
of the sub-detector runs (in detector-list order): failures are
dropped; if nothing survived the result is `(NORMAL, 0.0)`; otherwise
the strictest level is paired with `round(max score, 2)`. -/
def composite_detect (outcomes : List (Option PhishingResult)) : PhishingResult :=
  let all_results := outcomes.filterMap id
  if all_results = [] then { level := PhishingLevel.NORMAL, score := 0 }
  else
    { level := get_highest_level (all_results.map PhishingResult.level)
      score := pyRound 2 (pyMax (all_results.map PhishingResult.score)) }

/-! ## Long-URL detector (`app/utils/phishing/url_detector.py`)

`LongUrlDetector.detect` is embedded as a function of the extraction
results: `textUrls` models `_extract_text_urls(content_text)`,
`htmlLinks` models `_extract_html_links(content_html)` and
`disguisedLinks` models `_detect_link_disguise(content_html)` (the
regex/HTML-parser extractors themselves are inputs of the model).
`hasHtml` models the truthiness test `if content_html:`; when
`content_html` is empty no HTML extraction happens at all.  Default
constructor arguments: `url_length_threshold = 150`,
`suspicious_url_length = 100` (used at every call site). -/

/-- `LongUrlDetector.URL_LENGTH_THRESHOLD`. -/
def urlLengthThreshold : ℕ := 150

/-- `LongUrlDetector.SUSPICIOUS_URL_LENGTH`. -/
def suspiciousUrlLength : ℕ := 100

/-- Score accumulation of `LongUrlDetector.detect` (the `score`
variable at the end of the rule cascade, lines 99-152 of
`url_detector.py`), as a function of the truthiness of the five
filtered collections tested by the code: `long_text_urls`,
`suspicious_text_urls`, `long_html_links`, `suspicious_html_links`
and `disguised_links`. -/
def url_score_cascade (hasHtml longText susText longHtml susHtml dis : Bool) : ℚ :=
  let score1 : ℚ := if longText then 1 else 0
  let score2 : ℚ :=
    if hasHtml then
      let s1 := if longHtml then max score1 1 else score1
      let s2 := if dis then max s1 0.9 else s1
      if !longHtml && susHtml then max s2 suspiciousThreshold else s2
    else score1
  if score2 < highRiskThreshold ∧ susText then max score2 suspiciousThreshold
  else score2

/-- Score of `LongUrlDetector.detect` on the extraction results: the
list comprehensions over the extracted URLs are instantiated and each
`if <list>:` truthiness test becomes a `List.any` of the comprehension
predicate. -/
def long_url_score (hasHtml : Bool) (textUrls htmlLinks : List Str)
    (disguisedLinks : List (Str × Str)) : ℚ :=
  url_score_cascade hasHtml
    (textUrls.any fun u => urlLengthThreshold < u.length)
    (textUrls.any fun u =>
      suspiciousUrlLength < u.length && u.length ≤ urlLengthThreshold)
    (htmlLinks.any fun u => urlLengthThreshold < u.length)
    (htmlLinks.any fun u =>
      suspiciousUrlLength < u.length && u.length ≤ urlLengthThreshold)
    !disguisedLinks.isEmpty

/-- `LongUrlDetector.detect` (lines 99-163 of `url_detector.py`):
final level from the mapper and the score rounded to four decimals. -/
def long_url_detect (hasHtml : Bool) (textUrls htmlLinks : List Str)
    (disguisedLinks : List (Str × Str)) : PhishingResult :=
  let score := long_url_score hasHtml textUrls htmlLinks disguisedLinks
  { level := get_level score, score := pyRound 4 score }

/-! ## Whitelist rule matching
(`app/services/sender_whitelist_service.py` and
`app/services/url_whitelist_service.py`) -/

/-- Lowercasing of a modelled string (`str.lower()`; the rule values
and domains handled by the service are ASCII). -/
def lowerStr (s : Str) : Str := s.map Char.toLower

/-- Python's substring test `needle in hay` on modelled strings. -/
def strContains (needle : Str) : Str → Bool
  | [] => needle.isEmpty
  | c :: t => needle.isPrefixOf (c :: t) || strContains needle t

/-- Rule-type constant `RULE_EMAIL`. -/
def RULE_EMAIL : Str := "EMAIL".data

/-- Rule-type constant `RULE_DOMAIN`. -/
def RULE_DOMAIN : Str := "DOMAIN".data

/-- Rule-type constant `RULE_DOMAIN_SUFFIX`. -/
def RULE_DOMAIN_SUFFIX : Str := "DOMAIN-SUFFIX".data

/-- Rule-type constant `RULE_DOMAIN_KEYWORD`. -/
def RULE_DOMAIN_KEYWORD : Str := "DOMAIN-KEYWORD".data

/-- `SenderWhitelistMatcher._match_rule`: match a sender email/domain
pair against one rule. -/
def sender_match_rule (email domain : Str) (rule_type rule_value : Str) : Bool :=
  let email := lowerStr email
  let domain := lowerStr domain
  let rule_value := lowerStr rule_value
  if rule_type = RULE_EMAIL then email = rule_value
  else if rule_type = RULE_DOMAIN then domain = rule_value
  else if rule_type = RULE_DOMAIN_SUFFIX then
    if domain = rule_value then true
    else if ('.' :: rule_value).isSuffixOf domain then true
    else false
  else if rule_type = RULE_DOMAIN_KEYWORD then strContains rule_value domain
  else false

/-- `UrlWhitelistMatcher._match_rule`: match a URL hostname against one
rule (no EMAIL kind on the URL side). -/
def url_match_rule (domain : Str) (rule_type rule_value : Str) : Bool :=
  let domain := lowerStr domain
  let rule_value := lowerStr rule_value
  if rule_type = RULE_DOMAIN then domain = rule_value
  else if rule_type = RULE_DOMAIN_SUFFIX then
    if domain = rule_value then true
    else if ('.' :: rule_value).isSuffixOf domain then true
    else false
  else if rule_type = RULE_DOMAIN_KEYWORD then strContains rule_value domain
  else false

/-! ## Evaluation lemmas for the mapper and rounding -/

/-- Threshold mapping at score 1. -/
lemma get_level_one : get_level 1 = PhishingLevel.HIGH_RISK := by
  simp only [get_level, normalize_score, highRiskThreshold, suspiciousThreshold]
  norm_num

/-- Threshold mapping at score 0.6. -/
lemma get_level_point6 : get_level 0.6 = PhishingLevel.SUSPICIOUS := by
  simp only [get_level, normalize_score, highRiskThreshold, suspiciousThreshold]
  norm_num

/-- Threshold mapping at score 0.8. -/
lemma get_level_point8 : get_level 0.8 = PhishingLevel.HIGH_RISK := by
  simp only [get_level, normalize_score, highRiskThreshold, suspiciousThreshold]
  norm_num

/-- Threshold mapping at score 0. -/
lemma get_level_zero : get_level 0 = PhishingLevel.NORMAL := by
  simp only [get_level, normalize_score, highRiskThreshold, suspiciousThreshold]
  norm_num

/-- Rounding an integral rational is the identity. -/
lemma pyRound_one : pyRound 4 1 = 1 := by
  simp only [pyRound]
  norm_num

/-- Rounding 0.6 to four decimals. -/
lemma pyRound_point6 : pyRound 4 0.6 = 0.6 := by
  simp only [pyRound]
  norm_num

/-- Rounding 0 to four decimals. -/
lemma pyRound_zero : pyRound 4 0 = 0 := by
  simp only [pyRound]
  norm_num

/-- Rounding 0.796 to two decimals rounds up across the 0.8 threshold. -/
lemma pyRound_point796 : pyRound 2 0.796 = 0.8 := by
  simp only [pyRound]
  norm_num

/-! ## Monotonicity of the score-to-level mapping -/

/-- Numeric severity rank of a level. -/
def levelRank : PhishingLevel → ℕ
  | .NORMAL => 0
  | .SUSPICIOUS => 1
  | .HIGH_RISK => 2

/-- Levels with equal rank are equal. -/
lemma levelRank_injective {a b : PhishingLevel} (h : levelRank a = levelRank b) :
    a = b := by
  cases a <;> cases b <;> simp_all [levelRank]

/-- The score-to-level mapping is monotone. -/
lemma get_level_mono {s t : ℚ} (h : s ≤ t) :
    levelRank (get_level s) ≤ levelRank (get_level t) := by
  have hn : normalize_score s ≤ normalize_score t := by
    simp only [normalize_score]
    exact max_le_max le_rfl (min_le_min le_rfl h)
  simp only [get_level]
  by_cases h1 : highRiskThreshold ≤ normalize_score s
  · rw [if_pos h1, if_pos (le_trans h1 hn)]
  · rw [if_neg h1]
    by_cases h3 : suspiciousThreshold ≤ normalize_score s
    · rw [if_pos h3]
      by_cases h5 : highRiskThreshold ≤ normalize_score t
      · rw [if_pos h5]
        simp [levelRank]
      · rw [if_neg h5, if_pos (le_trans h3 hn)]
    · rw [if_neg h3]
      split_ifs <;> simp [levelRank]

/-- `get_highest_level` of a nonempty list is an element of the list. -/
lemma get_highest_level_mem {l : List PhishingLevel} (h : l ≠ []) :
    get_highest_level l ∈ l := by
  simp only [get_highest_level]
  split_ifs with h1 h2
  · exact h1
  · exact h2
  · match l, h with
    | a :: t, _ =>
      cases a
      · exact List.mem_cons_self _ _
      · exact absurd (List.mem_cons_self _ _) h2
      · exact absurd (List.mem_cons_self _ _) h1

/-- Every member of a list ranks at most `get_highest_level`. -/
lemma levelRank_le_get_highest_level {l : List PhishingLevel} {a : PhishingLevel}
    (ha : a ∈ l) : levelRank a ≤ levelRank (get_highest_level l) := by
  simp only [get_highest_level]
  split_ifs with h1 h2
  · cases a <;> simp [levelRank]
  · cases a
    · simp [levelRank]
    · simp [levelRank]
    · exact absurd ha h1
  · cases a
    · simp [levelRank]
    · exact absurd ha h2
    · exact absurd ha h1

/-! ## Maximum of a score list -/

/-- The fold underlying `pyMax` yields a member of the inputs. -/
lemma foldl_max_mem (xs : List ℚ) (x : ℚ) : xs.foldl max x ∈ x :: xs := by
  induction xs generalizing x with
  | nil => simp
  | cons y ys ih =>
    have := ih (max x y)
    rcases max_choice x y with h | h <;> rw [h] at this <;>
      simp only [List.foldl_cons] <;> rw [h] <;>
      rcases List.mem_cons.mp this with h2 | h2 <;> simp [h2]

/-- The fold underlying `pyMax` bounds the seed and every input. -/
lemma le_foldl_max (xs : List ℚ) (x : ℚ) :
    x ≤ xs.foldl max x ∧ ∀ s ∈ xs, s ≤ xs.foldl max x := by
  induction xs generalizing x with
  | nil => simp
  | cons y ys ih =>
    obtain ⟨h1, h2⟩ := ih (max x y)
    refine ⟨le_trans (le_max_left x y) h1, ?_⟩
    intro s hs
    rcases List.mem_cons.mp hs with rfl | hs
    · exact le_trans (le_max_right x s) h1
    · exact h2 s hs

/-- `pyMax` of a nonempty list is attained by an element. -/
lemma pyMax_mem {l : List ℚ} (h : l ≠ []) : pyMax l ∈ l := by
  match l, h with
  | x :: xs, _ => exact foldl_max_mem xs x

/-- `pyMax` bounds every element. -/
lemma le_pyMax {l : List ℚ} {s : ℚ} (hs : s ∈ l) : s ≤ pyMax l := by
  match l, hs with
  | x :: xs, hs =>
    rcases List.mem_cons.mp hs with rfl | hs
    · exact (le_foldl_max xs s).1
    · exact (le_foldl_max xs x).2 s hs

/-! ## Claim theorems: detection pipeline -/

/-- C10: if a sub-detector's `detect` raises, `CompositePhishingDetector.detect`
combines only the results of the detectors that succeeded; if every
sub-detector raises it returns level NORMAL with score 0.0 instead of
propagating the exception. -/
theorem composite_excludes_failed_detectors
    (outcomes : List (Option PhishingResult)) :
    composite_detect outcomes
        = composite_detect ((outcomes.filterMap id).map some)
    ∧ ((∀ o ∈ outcomes, o = none) →
        composite_detect outcomes
          = { level := PhishingLevel.NORMAL, score := 0 }) := by
  constructor
  · simp only [composite_detect, List.filterMap_map, Function.comp_def, id,
      List.filterMap_some]
  · intro hall
    have h : outcomes.filterMap id = [] := by
      rw [List.filterMap_eq_nil_iff]
      intro a ha
      exact (hall a ha) ▸ rfl
    simp [composite_detect, h]

/-- Witness for `composite_excludes_failed_detectors` at a concrete
input where both sub-detectors raised. -/
theorem composite_excludes_failed_detectors_witness :
    composite_detect [none, none]
      = { level := PhishingLevel.NORMAL, score := 0 } :=
  (composite_excludes_failed_detectors [none, none]).2 (by
    intro o ho
    rcases List.mem_cons.mp ho with rfl | ho
    · rfl
    · rcases List.mem_cons.mp ho with rfl | ho
      · rfl
      · cases ho)

/-- C1 (counterexample): a composite result assembled from sub-results
that are each internally consistent with the §4.7 mapping can be stored
with a rounded score whose mapping disagrees with the stored level:
with a single succeeding sub-detector returning `(SUSPICIOUS, 0.796)`
(self-consistent since `get_level 0.796 = SUSPICIOUS`), the stored
result is `(SUSPICIOUS, 0.8)` although `get_level 0.8 = HIGH_RISK`. -/
theorem composite_rounding_breaks_level_consistency :
    get_level ((0.796 : ℚ)) = PhishingLevel.SUSPICIOUS
    ∧ composite_detect [some { level := PhishingLevel.SUSPICIOUS, score := 0.796 }]
        = { level := PhishingLevel.SUSPICIOUS, score := 0.8 }
    ∧ (composite_detect
          [some { level := PhishingLevel.SUSPICIOUS, score := 0.796 }]).level
        ≠ get_level (composite_detect
          [some { level := PhishingLevel.SUSPICIOUS, score := 0.796 }]).score := by
  have h1 : get_level ((0.796 : ℚ)) = PhishingLevel.SUSPICIOUS := by
    simp only [get_level, normalize_score, highRiskThreshold, suspiciousThreshold]
    norm_num
  have h2 : composite_detect
      [some { level := PhishingLevel.SUSPICIOUS, score := 0.796 }]
      = { level := PhishingLevel.SUSPICIOUS, score := 0.8 } := by
    have hfm : (([some { level := PhishingLevel.SUSPICIOUS, score := 0.796 }] :
        List (Option PhishingResult)).filterMap id)
        = [{ level := PhishingLevel.SUSPICIOUS, score := 0.796 }] := rfl
    have hhl : get_highest_level [PhishingLevel.SUSPICIOUS]
        = PhishingLevel.SUSPICIOUS := by decide
    simp only [composite_detect, hfm]
    rw [if_neg (List.cons_ne_nil _ _)]
    simp only [List.map, hhl, pyMax, List.foldl, pyRound_point796]
  refine ⟨h1, h2, ?_⟩
  rw [h2, get_level_point8]
  intro h
  cases h

/-- C1 (amended): for a combined composite result over sub-results that
each satisfy `level = get_level score`, the combined level equals the
mapping applied to the combined (pre-rounding) maximal score. -/
theorem composite_level_matches_unrounded_score
    (results : List PhishingResult) (hne : results ≠ [])
    (hcons : ∀ r ∈ results, r.level = get_level r.score) :
    composite_detect (results.map some)
      = { level := get_level (pyMax (results.map PhishingResult.score))
          score := pyRound 2 (pyMax (results.map PhishingResult.score)) } := by
  have hfm : (results.map some).filterMap id = results := by
    rw [List.filterMap_map]
    simp only [Function.comp_def, id, List.filterMap_some]
  have hlvl : get_highest_level (results.map PhishingResult.level)
      = get_level (pyMax (results.map PhishingResult.score)) := by
    have hsne : results.map PhishingResult.score ≠ [] := by
      intro h
      exact hne (List.map_eq_nil_iff.mp h)
    have hlne : results.map PhishingResult.level ≠ [] := by
      intro h
      exact hne (List.map_eq_nil_iff.mp h)
    obtain ⟨rstar, hrmem, hrscore⟩ :=
      List.mem_map.mp (pyMax_mem hsne)
    apply levelRank_injective
    apply le_antisymm
    · have hmem : get_highest_level (results.map PhishingResult.level)
          ∈ results.map PhishingResult.level := get_highest_level_mem hlne
      obtain ⟨r2, hr2mem, hr2lvl⟩ := List.mem_map.mp hmem
      rw [← hr2lvl, hcons r2 hr2mem]
      have hle : r2.score ≤ pyMax (results.map PhishingResult.score) :=
        le_pyMax (List.mem_map_of_mem _ hr2mem)
      exact get_level_mono hle
    · rw [← hrscore, ← hcons rstar hrmem]
      exact levelRank_le_get_highest_level (List.mem_map_of_mem _ hrmem)
  obtain ⟨r, rs, rfl⟩ : ∃ a l, results = a :: l := by
    cases results with
    | nil => exact absurd rfl hne
    | cons a l => exact ⟨a, l, rfl⟩
  simp only [composite_detect, hfm]
  rw [if_neg (List.cons_ne_nil _ _), hlvl]

/-- Witness for `composite_level_matches_unrounded_score`: a singleton
self-consistent sub-result list. -/
theorem composite_level_matches_unrounded_score_witness :
    composite_detect [some { level := PhishingLevel.SUSPICIOUS, score := 0.7 }]
      = { level := get_level (pyMax [(0.7 : ℚ)])
          score := pyRound 2 (pyMax [(0.7 : ℚ)]) } := by
  have h := composite_level_matches_unrounded_score
    [{ level := PhishingLevel.SUSPICIOUS, score := 0.7 }]
    (by simp)
    (by
      intro r hr
      rw [List.mem_singleton] at hr
      subst hr
      simp only [get_level, normalize_score, highRiskThreshold, suspiciousThreshold]
      norm_num)
  simpa using h

/-- Cascade value when a long URL was found (in text always; in HTML
only when HTML content is present). -/
lemma url_score_cascade_high (hasHtml longText susText longHtml susHtml dis : Bool)
    (h : longText = true ∨ (hasHtml = true ∧ longHtml = true)) :
    url_score_cascade hasHtml longText susText longHtml susHtml dis = 1 := by
  rcases h with h | ⟨h1, h2⟩
  · subst h
    cases hasHtml <;> cases longHtml <;> cases susText <;> cases susHtml <;>
      cases dis <;>
      norm_num [url_score_cascade, suspiciousThreshold, highRiskThreshold,
        max_def]
  · subst h1
    subst h2
    cases longText <;> cases susText <;> cases susHtml <;> cases dis <;>
      norm_num [url_score_cascade, suspiciousThreshold, highRiskThreshold,
        max_def]

/-- Cascade value when no long URL and no disguised link was found but
a suspicious-length URL was. -/
lemma url_score_cascade_sus (hasHtml longText susText longHtml susHtml dis : Bool)
    (hlt : longText = false) (hlh : longHtml = false) (hd : dis = false)
    (h : susText = true ∨ (hasHtml = true ∧ susHtml = true)) :
    url_score_cascade hasHtml longText susText longHtml susHtml dis = 0.6 := by
  subst hlt
  subst hlh
  subst hd
  rcases h with h | ⟨h1, h2⟩
  · subst h
    cases hasHtml <;> cases susHtml <;>
      norm_num [url_score_cascade, suspiciousThreshold, highRiskThreshold,
        max_def]
  · subst h1
    subst h2
    cases susText <;>
      norm_num [url_score_cascade, suspiciousThreshold, highRiskThreshold,
        max_def]

/-- Cascade value when nothing fired. -/
lemma url_score_cascade_zero (hasHtml : Bool) :
    url_score_cascade hasHtml false false false false false = 0 := by
  cases hasHtml <;>
    norm_num [url_score_cascade, suspiciousThreshold, highRiskThreshold,
      max_def]

/-- C2: rule cascade of the long-URL detector.  With the convention
that no HTML extraction happens when `content_html` is empty: any
extracted URL longer than 150 characters forces `(HIGH_RISK, 1.0)`;
when no URL exceeds 150 and no disguised link fired, a URL of length in
`(100, 150]` (so also exactly 150) yields `(SUSPICIOUS, 0.6)`; with no
URL longer than 100 and no disguised link the result is `(NORMAL, 0.0)`. -/
theorem long_url_detector_rules (hasHtml : Bool)
    (textUrls htmlLinks : List Str) (disguisedLinks : List (Str × Str))
    (hhtml : hasHtml = false → htmlLinks = [] ∧ disguisedLinks = []) :
    ((∃ u ∈ textUrls ++ htmlLinks, 150 < u.length) →
      long_url_detect hasHtml textUrls htmlLinks disguisedLinks
        = { level := PhishingLevel.HIGH_RISK, score := 1 })
    ∧ ((∀ u ∈ textUrls ++ htmlLinks, u.length ≤ 150) → disguisedLinks = [] →
        (∃ u ∈ textUrls ++ htmlLinks, 100 < u.length) →
        long_url_detect hasHtml textUrls htmlLinks disguisedLinks
          = { level := PhishingLevel.SUSPICIOUS, score := 0.6 })
    ∧ ((∀ u ∈ textUrls ++ htmlLinks, u.length ≤ 100) → disguisedLinks = [] →
        long_url_detect hasHtml textUrls htmlLinks disguisedLinks
          = { level := PhishingLevel.NORMAL, score := 0 }) := by
  refine ⟨?_, ?_, ?_⟩
  · rintro ⟨u, humem, hulen⟩
    have hscore : long_url_score hasHtml textUrls htmlLinks disguisedLinks = 1 := by
      simp only [long_url_score]
      apply url_score_cascade_high
      rcases List.mem_append.mp humem with ht | hh
      · exact Or.inl (List.any_eq_true.mpr ⟨u, ht, by
          simp only [urlLengthThreshold, decide_eq_true_eq]; omega⟩)
      · have hhtrue : hasHtml = true := by
          cases hasHtml
          · exact absurd hh ((hhtml rfl).1 ▸ (List.not_mem_nil u))
          · rfl
        exact Or.inr ⟨hhtrue, List.any_eq_true.mpr ⟨u, hh, by
          simp only [urlLengthThreshold, decide_eq_true_eq]; omega⟩⟩
    simp only [long_url_detect, hscore, get_level_one, pyRound_one]
  · intro hshort hdis hex
    obtain ⟨u, humem, hulen⟩ := hex
    have hscore : long_url_score hasHtml textUrls htmlLinks disguisedLinks
        = 0.6 := by
      simp only [long_url_score]
      apply url_score_cascade_sus
      · rw [List.any_eq_false]
        intro a ha
        have := hshort a (List.mem_append.mpr (Or.inl ha))
        simp only [urlLengthThreshold, decide_eq_true_eq]
        omega
      · rw [List.any_eq_false]
        intro a ha
        have := hshort a (List.mem_append.mpr (Or.inr ha))
        simp only [urlLengthThreshold, decide_eq_true_eq]
        omega
      · rw [hdis]
        rfl
      · have hule : u.length ≤ 150 := hshort u humem
        rcases List.mem_append.mp humem with ht | hh
        · refine Or.inl (List.any_eq_true.mpr ⟨u, ht, ?_⟩)
          simp only [suspiciousUrlLength, urlLengthThreshold,
            Bool.and_eq_true, decide_eq_true_eq]
          omega
        · have hhtrue : hasHtml = true := by
            cases hasHtml
            · exact absurd hh ((hhtml rfl).1 ▸ (List.not_mem_nil u))
            · rfl
          refine Or.inr ⟨hhtrue, List.any_eq_true.mpr ⟨u, hh, ?_⟩⟩
          simp only [suspiciousUrlLength, urlLengthThreshold,
            Bool.and_eq_true, decide_eq_true_eq]
          omega
    simp only [long_url_detect, hscore, get_level_point6, pyRound_point6]
  · intro hshort hdis
    have h1 : textUrls.any (fun u => decide (urlLengthThreshold < u.length))
        = false := by
      rw [List.any_eq_false]
      intro a ha
      have := hshort a (List.mem_append.mpr (Or.inl ha))
      simp only [urlLengthThreshold, decide_eq_true_eq]
      omega
    have h2 : textUrls.any (fun u =>
        decide (suspiciousUrlLength < u.length) &&
        decide (u.length ≤ urlLengthThreshold)) = false := by
      rw [List.any_eq_false]
      intro a ha
      have := hshort a (List.mem_append.mpr (Or.inl ha))
      simp only [suspiciousUrlLength, urlLengthThreshold,
        Bool.and_eq_true, decide_eq_true_eq, not_and]
      omega
    have h3 : htmlLinks.any (fun u => decide (urlLengthThreshold < u.length))
        = false := by
      rw [List.any_eq_false]
      intro a ha
      have := hshort a (List.mem_append.mpr (Or.inr ha))
      simp only [urlLengthThreshold, decide_eq_true_eq]
      omega
    have h4 : htmlLinks.any (fun u =>
        decide (suspiciousUrlLength < u.length) &&
        decide (u.length ≤ urlLengthThreshold)) = false := by
      rw [List.any_eq_false]
      intro a ha
      have := hshort a (List.mem_append.mpr (Or.inr ha))
      simp only [suspiciousUrlLength, urlLengthThreshold,
        Bool.and_eq_true, decide_eq_true_eq, not_and]
      omega
    have hd : (!disguisedLinks.isEmpty) = false := by
      rw [hdis]
      rfl
    have hscore : long_url_score hasHtml textUrls htmlLinks disguisedLinks
        = 0 := by
      simp only [long_url_score]
      rw [h1, h2, h3, h4, hd]
      exact url_score_cascade_zero hasHtml
    simp only [long_url_detect, hscore, get_level_zero, pyRound_zero]

/-- Witness for `long_url_detector_rules`: a text URL of exactly 151
characters is HIGH_RISK with score 1.0, and one of exactly 150
characters (with nothing else) is SUSPICIOUS with score 0.6. -/
theorem long_url_detector_rules_witness :
    long_url_detect false [List.replicate 151 'a'] [] []
      = { level := PhishingLevel.HIGH_RISK, score := 1 }
    ∧ long_url_detect false [List.replicate 150 'a'] [] []
      = { level := PhishingLevel.SUSPICIOUS, score := 0.6 }
    ∧ long_url_detect false [List.replicate 100 'a'] [] []
      = { level := PhishingLevel.NORMAL, score := 0 } := by
  refine ⟨?_, ?_, ?_⟩
  · exact (long_url_detector_rules false [List.replicate 151 'a'] [] []
      (fun _ => ⟨rfl, rfl⟩)).1
      ⟨List.replicate 151 'a', by simp, by simp⟩
  · exact (long_url_detector_rules false [List.replicate 150 'a'] [] []
      (fun _ => ⟨rfl, rfl⟩)).2.1
      (by intro u hu; simp at hu; simp [hu]) rfl
      ⟨List.replicate 150 'a', by simp, by simp⟩
  · exact (long_url_detector_rules false [List.replicate 100 'a'] [] []
      (fun _ => ⟨rfl, rfl⟩)).2.2
      (by intro u hu; simp at hu; simp [hu]) rfl

/-- C3: a DOMAIN-SUFFIX whitelist rule with value `X` matches a sender
domain (resp. URL hostname) `d` exactly when, after lowercasing, `d`
equals `X` or `d` ends with `"." ++ X`; in particular the raw-substring
relation without the dot boundary never matches, so `evilqq.com` does
not match the suffix rule `qq.com` (while `mail.qq.com` does). -/
theorem domain_suffix_rule_exact (email domain value : Str) :
    (sender_match_rule email domain RULE_DOMAIN_SUFFIX value = true ↔
      (lowerStr domain = lowerStr value ∨
        ('.' :: lowerStr value) <:+ lowerStr domain))
    ∧ (url_match_rule domain RULE_DOMAIN_SUFFIX value = true ↔
      (lowerStr domain = lowerStr value ∨
        ('.' :: lowerStr value) <:+ lowerStr domain))
    ∧ sender_match_rule "attacker@evilqq.com".data "evilqq.com".data
        RULE_DOMAIN_SUFFIX "qq.com".data = false
    ∧ url_match_rule "evilqq.com".data RULE_DOMAIN_SUFFIX "qq.com".data = false
    ∧ url_match_rule "mail.qq.com".data RULE_DOMAIN_SUFFIX "qq.com".data = true := by
  refine ⟨?_, ?_, by decide, by decide, by decide⟩
  · simp only [sender_match_rule]
    rw [if_neg (by decide), if_neg (by decide), if_pos trivial]
    by_cases h : lowerStr domain = lowerStr value
    · rw [if_pos h]
      simp [h]
    · rw [if_neg h]
      constructor
      · intro h2
        by_cases h3 : ('.' :: lowerStr value).isSuffixOf (lowerStr domain) = true
        · exact Or.inr (List.isSuffixOf_iff_suffix.mp h3)
        · rw [if_neg h3] at h2
          cases h2
      · rintro (h3 | h3)
        · exact absurd h3 h
        · rw [if_pos (List.isSuffixOf_iff_suffix.mpr h3)]
  · simp only [url_match_rule]
    rw [if_neg (by decide), if_pos trivial]
    by_cases h : lowerStr domain = lowerStr value
    · rw [if_pos h]
      simp [h]
    · rw [if_neg h]
      constructor
      · intro h2
        by_cases h3 : ('.' :: lowerStr value).isSuffixOf (lowerStr domain) = true
        · exact Or.inr (List.isSuffixOf_iff_suffix.mp h3)
        · rw [if_neg h3] at h2
          cases h2
      · rintro (h3 | h3)
        · exact absurd h3 h
        · rw [if_pos (List.isSuffixOf_iff_suffix.mpr h3)]

/-! ## Mailbox upsert and UIDVALIDITY handling
(`MailboxCrud.upsert_mailbox`, `MailboxCrud.reset_mailbox_messages` in
`app/crud/mailbox_crud.py`, and the call sequence in
`EmailAccountService.sync_emails`, `app/services/email_account_service.py`
lines 229-243). -/

/-- Row of the `mailboxes` table (`MailboxEntity`), restricted to the
columns touched by `upsert_mailbox` (`last_uid` is the spec's
`last_uid_cursor`). -/
structure Mailbox where
  id : ℕ
  accountId : ℕ
  name : Str
  delimiter : Option Str
  attributes : Option Str
  uidValidity : Option ℤ
  lastUid : ℤ
deriving DecidableEq, Repr

/-- Key columns of a `mailbox_messages` row (`MailboxMessageEntity`)
needed to express the purge of a folder's messages. -/
structure FolderMessageRef where
  mailboxId : ℕ
  uid : ℤ
deriving DecidableEq, Repr

/-- `MailboxCrud.upsert_mailbox`, branch where the folder row already
exists: refresh delimiter/attributes, keep the stored `uid_validity`
when the reported one is falsy (`uid_validity or mailbox.uid_validity`),
and zero `last_uid` exactly when `uid_changed` (both values non-null
and different).  Returns the updated row and the `uid_changed` flag. -/
def upsert_existing_mailbox (m : Mailbox) (delimiter attributes : Option Str)
    (uid_validity : Option ℤ) : Mailbox × Bool :=
  let uid_changed :=
    uid_validity.isSome && m.uidValidity.isSome &&
      decide (m.uidValidity ≠ uid_validity)
  let newUv : Option ℤ :=
    match uid_validity with
    | none => m.uidValidity
    | some v => if v = 0 then m.uidValidity else some v
  ({ m with
      delimiter := delimiter
      attributes := attributes
      uidValidity := newUv
      lastUid := if uid_changed then 0 else m.lastUid }, uid_changed)

/-- `MailboxCrud.reset_mailbox_messages`: delete every
`mailbox_messages` row of the folder. -/
def reset_mailbox_messages (fms : List FolderMessageRef) (mailboxId : ℕ) :
    List FolderMessageRef :=
  fms.filter fun r => r.mailboxId ≠ mailboxId

/-- The UIDVALIDITY-reconciliation step of
`EmailAccountService.sync_emails` for one existing folder: upsert, then
purge the folder's message rows iff `uid_changed` (this runs before the
UID search / fetch refill of the same folder). -/
def sync_uidvalidity_step (m : Mailbox) (fms : List FolderMessageRef)
    (delimiter attributes : Option Str) (uid_validity : Option ℤ) :
    Mailbox × List FolderMessageRef :=
  let r := upsert_existing_mailbox m delimiter attributes uid_validity
  (r.1, if r.2 then reset_mailbox_messages fms m.id else fms)

/-! ## Start-UID computation
(`EmailAccountService.sync_emails`, lines 244-248). -/

/-- The `start_uid` computation: `last_uid = mailbox_entity.last_uid or 0`,
`start_uid = last_uid + 1`, and on first sync
(`last_uid == 0 and status.uid_next`) `start_uid = max(uid_next - 50, 1)`. -/
def compute_start_uid (lastUidField : Option ℤ) (uidNext : Option ℤ) : ℤ :=
  let last_uid : ℤ :=
    match lastUidField with
    | none => 0
    | some v => if v = 0 then 0 else v
  let start := last_uid + 1
  if last_uid = 0 then
    match uidNext with
    | some n => if n ≠ 0 then max (n - 50) 1 else start
    | none => start
  else start

/-! ## SSE event fan-out (`app/services/phishing_event_service.py`)

`PhishingEventService.register` creates an `asyncio.Queue(maxsize=100)`
per subscriber; `_broadcast` walks a snapshot of the user's queues and,
for each queue, drops the oldest entry when the queue is full
(`get_nowait`) before `put_nowait`-ing the new message.  A queue is
modelled as the list of its messages, head = oldest. -/

/-- Capacity passed to `asyncio.Queue` in `register`. -/
def sseQueueCapacity : ℕ := 100

/-- One queue's transition in `PhishingEventService._broadcast`: if the
queue is full, `get_nowait` removes the oldest message (the
`QueueEmpty` guard makes this a no-op on an empty queue), then
`put_nowait` appends unless the queue is still full (the `QueueFull`
guard skips the message). -/
def sse_publish_to_queue (cap : ℕ) (queue : List Str) (message : Str) :
    List Str :=
  let q1 := if cap ≤ queue.length then queue.tail else queue
  if q1.length < cap then q1 ++ [message] else q1

/-- `PhishingEventService._broadcast` over the snapshot of one user's
queues. -/
def sse_broadcast (cap : ℕ) (queues : List (List Str)) (message : Str) :
    List (List Str) :=
  queues.map fun q => sse_publish_to_queue cap q message

/-! ## Per-account sync loop control flow
(`EmailAccountService.sync_emails`, lines 219-309)

The folder loop body awaits, in order: `get_mailbox_status`,
`upsert_mailbox` (+ conditional purge, embedded separately above),
`select_mailbox` (whose boolean result the caller does not check),
`fetch_uids_since`, then per 20-UID chunk `fetch_emails_by_uid` +
`EmailSyncCrud.save_mailbox_emails` + `update_sync_state`.  Each
awaited operation is modelled by its outcome: `Except.error ()` for a
raised exception, `Except.ok v` for a returned value (the IMAP client
converts protocol-level failures into returned defaults such as
`MailboxStatus(None, None, None)`, `False` or `[]`, which are `ok`
values here).  There is no `try`/`except` inside the loop, which the
`Except` bind makes explicit. -/

/-- Parsed `STATUS` response (`MailboxStatus` in
`app/utils/imap/imap_models.py`). -/
structure MailboxStatusR where
  uidValidity : Option ℤ
  uidNext : Option ℤ
  messageCount : Option ℤ
deriving DecidableEq, Repr

/-- Outcomes of the awaited operations for one folder of the loop. -/
structure FolderRun where
  name : Str
  noselect : Bool
  statusR : Except Unit MailboxStatusR
  selectR : Except Unit Bool
  searchR : Except Unit (List ℤ)
  chunkR : List (Except Unit ℕ)
deriving Repr

/-- `EmailAccountService._chunk_list` (fuel-based recursion; the fuel
`values.length` suffices for any positive chunk size). -/
def chunk_list_aux : ℕ → List ℤ → ℕ → List (List ℤ)
  | 0, _, _ => []
  | _, [], _ => []
  | fuel + 1, l@(_ :: _), n => l.take n :: chunk_list_aux fuel (l.drop n) n

/-- `EmailAccountService._chunk_list`. -/
def chunk_list (values : List ℤ) (n : ℕ) : List (List ℤ) :=
  chunk_list_aux values.length values n

/-- The per-chunk fetch/persist loop: the `i`-th chunk consumes the
`i`-th outcome (fetch + `save_mailbox_emails` + `update_sync_state`);
a raised exception propagates, otherwise the synced counts add up. -/
def run_chunks : List (List ℤ) → List (Except Unit ℕ) → Except Unit ℕ
  | [], _ => Except.ok 0
  | _ :: cs, outcomes =>
    match outcomes.headD (Except.ok 0) with
    | Except.error e => Except.error e
    | Except.ok n =>
      match run_chunks cs outcomes.tail with
      | Except.error e => Except.error e
      | Except.ok m => Except.ok (n + m)

/-- Body of the folder loop for one folder: status, select (result
unchecked), UID search, then the chunk loop over the sorted UIDs.
Any raised exception propagates to the caller. -/
def process_folder (f : FolderRun) : Except Unit ℕ :=
  match f.statusR with
  | Except.error e => Except.error e
  | Except.ok _ =>
    match f.selectR with
    | Except.error e => Except.error e
    | Except.ok _ =>
      match f.searchR with
      | Except.error e => Except.error e
      | Except.ok uids =>
        run_chunks (chunk_list (uids.insertionSort (· ≤ ·)) 20) f.chunkR

/-- The folder loop of `sync_emails`: `\NOSELECT` folders are skipped;
otherwise the body runs and — since the loop has no exception handler —
a raised exception aborts the remaining folders.  Returns the names of
the folders whose body completed. -/
def sync_folders : List FolderRun → Except Unit (List Str)
  | [] => Except.ok []
  | f :: rest =>
    if f.noselect then sync_folders rest
    else
      match process_folder f with
      | Except.error e => Except.error e
      | Except.ok _ =>
        match sync_folders rest with
        | Except.error e => Except.error e
        | Except.ok names => Except.ok (f.name :: names)

/-! ## Claim theorems: sync engine and SSE -/

/-- Purging twice is empty: no row of the purged folder survives. -/
lemma filter_reset_eq_nil (fms : List FolderMessageRef) (i : ℕ) :
    ((reset_mailbox_messages fms i).filter fun r => r.mailboxId = i) = [] := by
  simp only [reset_mailbox_messages, List.filter_filter]
  rw [List.filter_eq_nil_iff]
  intro a _
  simp only [Bool.and_eq_true, decide_eq_true_eq]
  tauto

/-- C4: during a sync, an existing folder whose stored `uid_validity`
is non-null and differs from the remote STATUS value has all its
FolderMessage rows purged and its `last_uid` cursor reset to 0 (before
the refill of that folder); when the stored value is null or equal to
the remote value, the message rows and the cursor are untouched. -/
theorem uidvalidity_change_purges_and_resets (m : Mailbox)
    (fms : List FolderMessageRef) (delimiter attributes : Option Str)
    (w v : ℤ) :
    (m.uidValidity = some w → w ≠ v →
      (sync_uidvalidity_step m fms delimiter attributes (some v)).1.lastUid = 0
      ∧ (sync_uidvalidity_step m fms delimiter attributes (some v)).2
          = reset_mailbox_messages fms m.id
      ∧ ((sync_uidvalidity_step m fms delimiter attributes (some v)).2.filter
          fun r => r.mailboxId = m.id) = [])
    ∧ (m.uidValidity = some v →
      sync_uidvalidity_step m fms delimiter attributes (some v)
        = ({ m with delimiter := delimiter, attributes := attributes }, fms))
    ∧ (m.uidValidity = none →
      sync_uidvalidity_step m fms delimiter attributes (some v)
        = ({ m with
              delimiter := delimiter
              attributes := attributes
              uidValidity := if v = 0 then none else some v }, fms)) := by
  refine ⟨?_, ?_, ?_⟩
  · intro hw hne
    have hchanged : ((some v : Option ℤ).isSome && m.uidValidity.isSome &&
        decide (m.uidValidity ≠ some v)) = true := by
      rw [hw]
      simp only [Option.isSome_some, Bool.true_and, Bool.and_self,
        decide_eq_true_eq, ne_eq, Option.some.injEq]
      exact hne
    simp only [sync_uidvalidity_step, upsert_existing_mailbox, hchanged,
      if_pos rfl]
    exact ⟨rfl, rfl, filter_reset_eq_nil fms m.id⟩
  · intro hv
    have hchanged : ((some v : Option ℤ).isSome && m.uidValidity.isSome &&
        decide (m.uidValidity ≠ some v)) = false := by
      rw [hv]
      simp
    have huv : (if v = 0 then m.uidValidity else some v) = m.uidValidity := by
      by_cases h0 : v = 0
      · rw [if_pos h0]
      · rw [if_neg h0, hv]
    simp only [sync_uidvalidity_step, upsert_existing_mailbox, hchanged,
      Bool.false_eq_true, if_false, huv]
  · intro hnone
    simp [sync_uidvalidity_step, upsert_existing_mailbox, hnone]

/-- Witness for `uidvalidity_change_purges_and_resets`: scenario 3 of
spec §8 — stored `uid_validity = 100`, remote reports `200`. -/
theorem uidvalidity_change_purges_and_resets_witness :
    ((sync_uidvalidity_step
        { id := 7, accountId := 1, name := "INBOX".data, delimiter := none,
          attributes := none, uidValidity := some 100, lastUid := 40 }
        [{ mailboxId := 7, uid := 12 }, { mailboxId := 9, uid := 3 },
          { mailboxId := 7, uid := 40 }]
        none none (some 200)).1.lastUid = 0)
    ∧ ((sync_uidvalidity_step
        { id := 7, accountId := 1, name := "INBOX".data, delimiter := none,
          attributes := none, uidValidity := some 100, lastUid := 40 }
        [{ mailboxId := 7, uid := 12 }, { mailboxId := 9, uid := 3 },
          { mailboxId := 7, uid := 40 }]
        none none (some 200)).2.filter fun r => r.mailboxId = 7) = [] := by
  have h := (uidvalidity_change_purges_and_resets
    { id := 7, accountId := 1, name := "INBOX".data, delimiter := none,
      attributes := none, uidValidity := some 100, lastUid := 40 }
    [{ mailboxId := 7, uid := 12 }, { mailboxId := 9, uid := 3 },
      { mailboxId := 7, uid := 40 }]
    none none 100 200).1 rfl (by decide)
  exact ⟨h.1, h.2.2⟩

/-- C6: the search start UID is `last_uid_cursor + 1` when the cursor
is positive, and `max(uid_next_remote - 50, 1)` on a first sync with a
known (non-zero) `uid_next_remote`; in particular a first sync with
`uid_next_remote = 37` starts at UID 1. -/
theorem start_uid_computation :
    (∀ c : ℤ, 0 < c → ∀ uidNext, compute_start_uid (some c) uidNext = c + 1)
    ∧ (∀ n : ℤ, 0 < n →
        compute_start_uid none (some n) = max (n - 50) 1
        ∧ compute_start_uid (some 0) (some n) = max (n - 50) 1)
    ∧ compute_start_uid none (some 37) = 1
    ∧ compute_start_uid (some 0) (some 37) = 1 := by
  have heval : ∀ n : ℤ, ¬n = 0 → compute_start_uid none (some n) = max (n - 50) 1 ∧
      compute_start_uid (some 0) (some n) = max (n - 50) 1 := by
    intro n hn
    constructor
    · simp only [compute_start_uid, if_true]
      rw [if_pos hn]
    · simp only [compute_start_uid, if_true]
      rw [if_pos hn]
  refine ⟨?_, ?_, ?_, ?_⟩
  · intro c hc uidNext
    have hc0 : ¬c = 0 := by omega
    simp only [compute_start_uid]
    rw [if_neg hc0, if_neg hc0]
  · intro n hn
    exact heval n (by omega)
  · rw [(heval 37 (by norm_num)).1]
    norm_num [max_def]
  · rw [(heval 37 (by norm_num)).2]
    norm_num [max_def]

/-- Witness for `start_uid_computation`: incremental sync from cursor
40 starts at 41; first sync with `UIDNEXT = 100` starts at 50. -/
theorem start_uid_computation_witness :
    compute_start_uid (some 40) (some 100) = 41
    ∧ compute_start_uid none (some 100) = 50 := by
  constructor
  · exact start_uid_computation.1 40 (by norm_num) (some 100)
  · rw [(start_uid_computation.2.1 100 (by norm_num)).1]
    norm_num [max_def]

/-- C8: publishing to a full subscriber queue (capacity 100) drops the
oldest queued message and appends the new one — the queue length stays
100, the newest message is retained at the back, and the publish never
blocks (both operations are the non-waiting `get_nowait`/`put_nowait`);
on a non-full queue the event is simply appended (per-queue FIFO). -/
theorem sse_queue_drop_oldest (q : List Str) (m : Str) :
    (q.length = sseQueueCapacity →
      sse_publish_to_queue sseQueueCapacity q m = q.drop 1 ++ [m]
      ∧ (sse_publish_to_queue sseQueueCapacity q m).length = sseQueueCapacity
      ∧ (sse_publish_to_queue sseQueueCapacity q m).getLast? = some m)
    ∧ (q.length < sseQueueCapacity →
      sse_publish_to_queue sseQueueCapacity q m = q ++ [m]) := by
  constructor
  · intro hfull
    have htl : q.tail.length < sseQueueCapacity := by
      rw [List.length_tail]
      simp only [sseQueueCapacity] at *
      omega
    have h1 : sse_publish_to_queue sseQueueCapacity q m = q.tail ++ [m] := by
      simp only [sse_publish_to_queue]
      rw [if_pos (le_of_eq hfull.symm), if_pos htl]
    refine ⟨by rw [h1, List.drop_one], ?_, ?_⟩
    · rw [h1, List.length_append, List.length_tail, hfull]
      simp only [sseQueueCapacity]
      norm_num
    · rw [h1]
      simp
  · intro hlt
    simp only [sse_publish_to_queue]
    rw [if_neg (show ¬sseQueueCapacity ≤ q.length by omega), if_pos hlt]

/-- Witness for `sse_queue_drop_oldest`: a full queue of 100 copies of
`"a"` receiving `"b"`. -/
theorem sse_queue_drop_oldest_witness :
    (List.replicate sseQueueCapacity "a".data).length = sseQueueCapacity
    ∧ sse_publish_to_queue sseQueueCapacity
        (List.replicate sseQueueCapacity "a".data) "b".data
      = (List.replicate sseQueueCapacity "a".data).drop 1 ++ ["b".data] :=
  ⟨by simp,
    ((sse_queue_drop_oldest (List.replicate sseQueueCapacity "a".data)
      "b".data).1 (by simp)).1⟩

/-- All-ok chunk outcomes make the chunk loop succeed. -/
lemma run_chunks_ok (chunks : List (List ℤ)) (outcomes : List (Except Unit ℕ))
    (h : ∀ c ∈ outcomes, ∃ n, c = Except.ok n) :
    ∃ n, run_chunks chunks outcomes = Except.ok n := by
  induction chunks generalizing outcomes with
  | nil => exact ⟨0, rfl⟩
  | cons c cs ih =>
    cases outcomes with
    | nil =>
      obtain ⟨n, hn⟩ := ih [] (by intro c hc; cases hc)
      exact ⟨0 + n, by simp only [run_chunks, List.headD, List.tail, hn]⟩
    | cons o os =>
      obtain ⟨n, hn⟩ := h o (List.mem_cons_self _ _)
      obtain ⟨msum, hm⟩ := ih os fun c hc => h c (List.mem_cons_of_mem _ hc)
      exact ⟨n + msum, by simp only [run_chunks, List.headD, List.tail, hn, hm]⟩

/-- C9 (counterexample): the folder loop of `sync_emails` has no
per-folder exception handler, so a raised IMAP error (here: `status`
raising for the first folder) or a raised Store error (here: the
persist of the first folder's only chunk raising) aborts the whole
account sync — the second folder, which on its own syncs fine, is not
processed. -/
theorem sync_aborts_subsequent_folders_on_exception :
    sync_folders
      [{ name := "Drafts".data, noselect := false, statusR := Except.error (),
         selectR := Except.ok true, searchR := Except.ok [], chunkR := [] },
       { name := "INBOX".data, noselect := false,
         statusR := Except.ok
           { uidValidity := some 1, uidNext := some 37, messageCount := some 2 },
         selectR := Except.ok true, searchR := Except.ok [35, 36],
         chunkR := [Except.ok 2] }]
      = Except.error ()
    ∧ sync_folders
      [{ name := "Junk".data, noselect := false,
         statusR := Except.ok
           { uidValidity := some 1, uidNext := some 37, messageCount := some 2 },
         selectR := Except.ok true, searchR := Except.ok [5],
         chunkR := [Except.error ()] },
       { name := "INBOX".data, noselect := false,
         statusR := Except.ok
           { uidValidity := some 1, uidNext := some 37, messageCount := some 2 },
         selectR := Except.ok true, searchR := Except.ok [35, 36],
         chunkR := [Except.ok 2] }]
      = Except.error ()
    ∧ sync_folders
      [{ name := "INBOX".data, noselect := false,
         statusR := Except.ok
           { uidValidity := some 1, uidNext := some 37, messageCount := some 2 },
         selectR := Except.ok true, searchR := Except.ok [35, 36],
         chunkR := [Except.ok 2] }]
      = Except.ok ["INBOX".data] := by
  refine ⟨rfl, rfl, rfl⟩

/-- C9 (amended): when every awaited IMAP/Store operation returns
(possibly a failure *value*: a null-field STATUS, `select` returning
`False` — which the caller does not even check — or an empty UID list)
rather than raising, every non-`\NOSELECT` folder of the account is
processed.  Raised exceptions, by contrast, abort the remaining
folders (see the counterexample). -/
theorem sync_processes_all_folders_without_exception
    (folders : List FolderRun)
    (h : ∀ f ∈ folders, f.noselect = false →
      (∃ s, f.statusR = Except.ok s) ∧ (∃ b, f.selectR = Except.ok b)
      ∧ (∃ us, f.searchR = Except.ok us)
      ∧ (∀ c ∈ f.chunkR, ∃ n, c = Except.ok n)) :
    sync_folders folders
      = Except.ok ((folders.filter fun f => !f.noselect).map FolderRun.name) := by
  induction folders with
  | nil => rfl
  | cons f rest ih =>
    have hrest := ih fun g hg => h g (List.mem_cons_of_mem _ hg)
    cases hns : f.noselect with
    | true =>
      simpa [sync_folders, hns, List.filter_cons] using hrest
    | false =>
      obtain ⟨⟨s, hs⟩, ⟨b, hb⟩, ⟨us, hus⟩, hchunks⟩ :=
        h f (List.mem_cons_self _ _) hns
      obtain ⟨n, hn⟩ := run_chunks_ok
        (chunk_list (us.insertionSort (· ≤ ·)) 20) f.chunkR hchunks
      have hpf : process_folder f = Except.ok n := by
        simp only [process_folder, hs, hb, hus, hn]
      simp only [sync_folders, hns, Bool.false_eq_true, if_false, hpf, hrest,
        List.filter_cons, Bool.not_false, List.map_cons, if_true,
        if_pos trivial]

/-- Witness for `sync_processes_all_folders_without_exception`: two
selectable folders (one with a failed-but-returned `select` and an
empty search) around a `\NOSELECT` folder whose operations would all
raise. -/
theorem sync_processes_all_folders_without_exception_witness :
    sync_folders
      [{ name := "INBOX".data, noselect := false,
         statusR := Except.ok
           { uidValidity := some 1, uidNext := some 37, messageCount := some 0 },
         selectR := Except.ok false, searchR := Except.ok [], chunkR := [] },
       { name := "Junk".data, noselect := true, statusR := Except.error (),
         selectR := Except.error (), searchR := Except.error (), chunkR := [] },
       { name := "Sent".data, noselect := false,
         statusR := Except.ok
           { uidValidity := none, uidNext := none, messageCount := none },
         selectR := Except.ok true, searchR := Except.ok [3],
         chunkR := [Except.ok 1] }]
      = Except.ok ["INBOX".data, "Sent".data] := by
  have h := sync_processes_all_folders_without_exception
    [{ name := "INBOX".data, noselect := false,
       statusR := Except.ok
           { uidValidity := some 1, uidNext := some 37, messageCount := some 0 },
       selectR := Except.ok false, searchR := Except.ok [], chunkR := [] },
     { name := "Junk".data, noselect := true, statusR := Except.error (),
       selectR := Except.error (), searchR := Except.error (), chunkR := [] },
     { name := "Sent".data, noselect := false,
       statusR := Except.ok
           { uidValidity := none, uidNext := none, messageCount := none },
       selectR := Except.ok true, searchR := Except.ok [3],
       chunkR := [Except.ok 1] }]
    (by
      intro f hf
      rcases List.mem_cons.mp hf with rfl | hf
      · exact fun _ => ⟨⟨_, rfl⟩, ⟨_, rfl⟩, ⟨_, rfl⟩, by intro c hc; cases hc⟩
      rcases List.mem_cons.mp hf with rfl | hf
      · intro hcontra
        cases hcontra
      rcases List.mem_cons.mp hf with rfl | hf
      · refine fun _ => ⟨⟨_, rfl⟩, ⟨_, rfl⟩, ⟨_, rfl⟩, ?_⟩
        intro c hc
        rcases List.mem_cons.mp hc with rfl | hc
        · exact ⟨_, rfl⟩
        · cases hc
      · cases hf)
  exact h.trans rfl

/-! ## Flag utilities (`app/utils/imap/imap_flag_utils.py`) -/

/-- Lexicographic comparison of modelled strings by character code
(Python's default string ordering, used by `sorted`). -/
def strLeb : Str → Str → Bool
  | [], _ => true
  | _ :: _, [] => false
  | a :: as, b :: bs => if a = b then strLeb as bs else decide (a < b)

/-- Insertion step of the sort underlying `sorted(flags)`. -/
def insert_sorted_str (x : Str) : List Str → List Str
  | [] => [x]
  | y :: ys => if strLeb x y then x :: y :: ys else y :: insert_sorted_str x ys

/-- Python's `sorted` on a list of strings (insertion sort; `sorted` is
only used for a canonical order, so the algorithm is immaterial). -/
def py_sorted_strs (l : List Str) : List Str := l.foldr insert_sorted_str []

/-- `normalize_flags`: `None` for an empty list, otherwise the sorted
flags joined with single spaces. -/
def normalize_flags (flags : List Str) : Option Str :=
  if flags.isEmpty then none
  else some (List.intercalate " ".data (py_sorted_strs flags))

/-- The five derived boolean columns. -/
structure FlagStatus where
  is_read : Bool
  is_flagged : Bool
  is_answered : Bool
  is_deleted : Bool
  is_draft : Bool
deriving DecidableEq, Repr

/-- Uppercasing of a modelled string (`str.upper()`; IMAP flags are
ASCII). -/
def upperStr (s : Str) : Str := s.map Char.toUpper

/-- `flags_to_status`: case-insensitive membership of the five standard
IMAP flags. -/
def flags_to_status (flags : List Str) : FlagStatus :=
  let upper_flags := flags.map upperStr
  { is_read := upper_flags.contains "\\SEEN".data
    is_flagged := upper_flags.contains "\\FLAGGED".data
    is_answered := upper_flags.contains "\\ANSWERED".data
    is_deleted := upper_flags.contains "\\DELETED".data
    is_draft := upper_flags.contains "\\DRAFT".data }

/-! ## Batched email persistence (`EmailSyncCrud.save_mailbox_emails`,
`app/crud/email_sync_crud.py` lines 39-129)

The four tables touched by the writer are modelled as row lists; the
autoincrement primary keys that the database assigns at flush time are
modelled by the `nextMessageId` / `nextMmId` counters.  The two
pre-loaded lookup dictionaries (`existing_messages`,
`existing_mailbox_messages`) are modelled by `find?` lookups against
the same data they are built from: `_load_existing_messages` keyed by
`(account_id, message_id ∈ batch)` and `_load_existing_mailbox_messages`
keyed by `(mailbox_id, uid ∈ batch)` — inside the loop each lookup key
belongs to the batch, so the `in_`-restriction of the preload is
equivalent to a direct lookup. -/

/-- Row of `email_messages` (`EmailEntity`). -/
structure MsgRow where
  id : ℕ
  accountId : ℕ
  messageId : Option Str
  subject : Option Str
  senderName : Option Str
  senderAddress : Option Str
  snippet : Option Str
  receivedAt : Option ℤ
  size : Option ℕ
  phishingLevel : PhishingLevel
  phishingScore : ℚ
  phishingReason : Option Str
  phishingStatus : PhishingStatus
deriving Repr

/-- Row of `email_bodies` (`EmailBodyEntity`), keyed by the owning
message's id. -/
structure BodyRow where
  messageDbId : ℕ
  contentText : Option Str
  contentHtml : Option Str
deriving Repr

/-- One parsed recipient of a payload (`ParsedRecipient`). -/
structure RecipientInfo where
  recipientType : Str
  name : Option Str
  address : Option Str
deriving Repr

/-- Row of `email_recipients` (`EmailRecipientEntity`). -/
structure RecipientRow where
  messageDbId : ℕ
  recipientType : Str
  displayName : Option Str
  emailAddress : Option Str
deriving Repr

/-- Row of `mailbox_messages` (`MailboxMessageEntity`). -/
structure MmRow where
  id : ℕ
  mailboxId : ℕ
  messageDbId : ℕ
  uid : ℕ
  flags : Option Str
  internalDate : Option ℤ
  is_read : Bool
  is_flagged : Bool
  is_answered : Bool
  is_deleted : Bool
  is_draft : Bool
deriving Repr

/-- One payload dict built by `EmailAccountService._build_payloads`
(with the detection defaults the sync sets before persisting). -/
structure Payload where
  uid : ℕ
  flags : List Str
  internalDate : Option ℤ
  size : Option ℕ
  messageId : Option Str
  subject : Option Str
  senderName : Option Str
  senderAddress : Option Str
  recipients : List RecipientInfo
  contentText : Option Str
  contentHtml : Option Str
  snippet : Option Str
  receivedAt : Option ℤ
  phishingLevel : PhishingLevel
  phishingScore : ℚ
  phishingReason : Option Str
  phishingStatus : PhishingStatus
deriving Repr

/-- State of the four persisted tables plus the autoincrement counters. -/
structure SyncDb where
  messages : List MsgRow
  bodies : List BodyRow
  recipients : List RecipientRow
  mailboxMessages : List MmRow
  nextMessageId : ℕ
  nextMmId : ℕ
deriving Repr

/-- Key test of the `(mailbox_id, uid)` lookup dictionary. -/
def mm_key_match (mailboxId uid : ℕ) (r : MmRow) : Bool :=
  r.mailboxId = mailboxId && r.uid = uid

/-- `EmailSyncCrud._update_mailbox_message_flags`: in-place refresh of
the flag string and the five derived booleans. -/
def apply_flag_update (p : Payload) (r : MmRow) : MmRow :=
  let status := flags_to_status p.flags
  { r with
      flags := normalize_flags p.flags
      is_read := status.is_read
      is_flagged := status.is_flagged
      is_answered := status.is_answered
      is_deleted := status.is_deleted
      is_draft := status.is_draft }

/-- In-place mutation of the first row matching a predicate (the model
of mutating the entity object found in a lookup dictionary). -/
def replaceFirst (p : α → Bool) (g : α → α) : List α → List α
  | [] => []
  | x :: xs => if p x then g x :: xs else x :: replaceFirst p g xs

/-- Accumulator of the payload loop of `save_mailbox_emails`: the
(possibly mutated) preloaded `mailbox_messages` rows and the four
`new_*` lists. -/
structure PersistAcc where
  mms : List MmRow
  newMessages : List MsgRow
  newBodies : List BodyRow
  newRecipients : List RecipientRow
  newMms : List MmRow
  nextMessageId : ℕ
  nextMmId : ℕ
deriving Repr

/-- Construction of a fresh `EmailEntity` inside
`EmailSyncCrud._get_or_create_message` (the `received_at or
internal_date` fallback included). -/
def build_message (accountId : ℕ) (p : Payload) (msgId : ℕ) : MsgRow :=
  { id := msgId
    accountId := accountId
    messageId := p.messageId
    subject := p.subject
    senderName := p.senderName
    senderAddress := p.senderAddress
    snippet := p.snippet
    receivedAt := p.receivedAt.or p.internalDate
    size := p.size
    phishingLevel := p.phishingLevel
    phishingScore := p.phishingScore
    phishingReason := p.phishingReason
    phishingStatus := p.phishingStatus }

/-- `EmailSyncCrud._get_or_create_message`: consult the dictionary
(batch-created entries first, then the preloaded ones — the key sets
are disjoint, since creation only happens on a dictionary miss), else
create.  The returned boolean models the caller's
`message in new_messages` identity test. -/
def get_or_create_message (db : SyncDb) (accountId : ℕ) (p : Payload)
    (acc : PersistAcc) : MsgRow × Bool × PersistAcc :=
  let fresh :=
    (build_message accountId p acc.nextMessageId, true,
      { acc with
          newMessages := acc.newMessages ++
            [build_message accountId p acc.nextMessageId]
          nextMessageId := acc.nextMessageId + 1 })
  match p.messageId with
  | none => fresh
  | some mid =>
    match acc.newMessages.find? fun m => m.messageId = some mid with
    | some m => (m, true, acc)
    | none =>
      match db.messages.find? fun m =>
          m.accountId = accountId && m.messageId = some mid with
      | some m => (m, false, acc)
      | none => fresh

/-- Loop body of `save_mailbox_emails` for one payload: if a
`mailbox_messages` row with this `(mailbox_id, uid)` was preloaded,
refresh its flags and continue; otherwise get-or-create the message
(plus body and recipients when it is batch-new) and stage a new
`mailbox_messages` row. -/
def process_payload (db : SyncDb) (accountId mailboxId : ℕ)
    (acc : PersistAcc) (p : Payload) : PersistAcc :=
  if (db.mailboxMessages.find? (mm_key_match mailboxId p.uid)).isSome then
    { acc with
        mms := replaceFirst (mm_key_match mailboxId p.uid)
          (apply_flag_update p) acc.mms }
  else
    match get_or_create_message db accountId p acc with
    | (m, isNew, acc1) =>
      let acc2 :=
        if isNew then
          { acc1 with
              newBodies := acc1.newBodies ++
                [{ messageDbId := m.id, contentText := p.contentText,
                   contentHtml := p.contentHtml }]
              newRecipients := acc1.newRecipients ++ p.recipients.map fun rc =>
                { messageDbId := m.id, recipientType := rc.recipientType,
                  displayName := rc.name, emailAddress := rc.address } }
        else acc1
      let status := flags_to_status p.flags
      { acc2 with
          newMms := acc2.newMms ++
            [{ id := acc2.nextMmId, mailboxId := mailboxId,
               messageDbId := m.id, uid := p.uid,
               flags := normalize_flags p.flags
               internalDate := p.internalDate
               is_read := status.is_read
               is_flagged := status.is_flagged
               is_answered := status.is_answered
               is_deleted := status.is_deleted
               is_draft := status.is_draft }]
          nextMmId := acc2.nextMmId + 1 }

/-- `EmailSyncCrud.save_mailbox_emails`: run the payload loop, then
flush everything; returns the new state, the number of newly inserted
`mailbox_messages` rows and their ids. -/
def save_mailbox_emails (db : SyncDb) (accountId mailboxId : ℕ)
    (payloads : List Payload) : SyncDb × ℕ × List ℕ :=
  if payloads.isEmpty then (db, 0, [])
  else
    let acc := payloads.foldl (process_payload db accountId mailboxId)
      { mms := db.mailboxMessages, newMessages := [], newBodies := [],
        newRecipients := [], newMms := [], nextMessageId := db.nextMessageId,
        nextMmId := db.nextMmId }
    ({ messages := db.messages ++ acc.newMessages
       bodies := db.bodies ++ acc.newBodies
       recipients := db.recipients ++ acc.newRecipients
       mailboxMessages := acc.mms ++ acc.newMms
       nextMessageId := acc.nextMessageId
       nextMmId := acc.nextMmId },
     acc.newMms.length, acc.newMms.map MmRow.id)

/-! ## Lemmas on the persistence loop -/

/-- Refreshing flags twice with the same payload is the same as once. -/
lemma apply_flag_update_idem (p : Payload) (r : MmRow) :
    apply_flag_update p (apply_flag_update p r) = apply_flag_update p r := rfl

/-- The flag refresh never touches the key/identity columns. -/
lemma apply_flag_update_cols (p : Payload) (r : MmRow) :
    (apply_flag_update p r).id = r.id
    ∧ (apply_flag_update p r).mailboxId = r.mailboxId
    ∧ (apply_flag_update p r).uid = r.uid
    ∧ (apply_flag_update p r).messageDbId = r.messageDbId
    ∧ (apply_flag_update p r).internalDate = r.internalDate :=
  ⟨rfl, rfl, rfl, rfl, rfl⟩

/-- The flag refresh preserves the `(mailbox_id, uid)` key test. -/
lemma mm_key_match_apply (mailboxId uid : ℕ) (p : Payload) (r : MmRow) :
    mm_key_match mailboxId uid (apply_flag_update p r)
      = mm_key_match mailboxId uid r := rfl

/-- Distinct UIDs have disjoint key tests. -/
lemma mm_key_match_of_ne {mailboxId u1 u2 : ℕ} (h : u1 ≠ u2) (r : MmRow)
    (h1 : mm_key_match mailboxId u1 r = true) :
    mm_key_match mailboxId u2 r = false := by
  simp only [mm_key_match, Bool.and_eq_true, decide_eq_true_eq] at h1
  have h2 : r.uid ≠ u2 := by
    rw [h1.2]
    exact h
  simp [mm_key_match, h2]

/-- `replaceFirst` is the identity when the first match is a fixed
point of the mutation. -/
lemma replaceFirst_eq_self (p : α → Bool) (g : α → α) (l : List α)
    (h : ∀ x, l.find? p = some x → g x = x) :
    replaceFirst p g l = l := by
  induction l with
  | nil => rfl
  | cons x xs ih =>
    by_cases hp : p x = true
    · rw [replaceFirst, if_pos hp, h x (List.find?_cons_of_pos xs hp)]
    · rw [replaceFirst, if_neg hp,
        ih fun y hy => h y ((List.find?_cons_of_neg xs hp).trans hy)]

/-- The first match after `replaceFirst` on its own predicate. -/
lemma find?_replaceFirst_self (p : α → Bool) (g : α → α) (l : List α)
    (hg : ∀ x, p (g x) = p x) :
    (replaceFirst p g l).find? p = (l.find? p).map g := by
  induction l with
  | nil => rfl
  | cons x xs ih =>
    by_cases hp : p x = true
    · rw [replaceFirst, if_pos hp,
        List.find?_cons_of_pos _ (by rw [hg]; exact hp),
        List.find?_cons_of_pos _ hp]
      rfl
    · rw [replaceFirst, if_neg hp, List.find?_cons_of_neg _ hp,
        List.find?_cons_of_neg _ hp, ih]

/-- `replaceFirst` with a disjoint predicate does not disturb a
`find?`. -/
lemma find?_replaceFirst_disjoint (p q : α → Bool) (g : α → α) (l : List α)
    (hpq : ∀ x, p x = true → q x = false)
    (hg : ∀ x, p (g x) = p x) :
    (replaceFirst q g l).find? p = l.find? p := by
  induction l with
  | nil => rfl
  | cons x xs ih =>
    by_cases hq : q x = true
    · rw [replaceFirst, if_pos hq]
      by_cases hp : p x = true
      · rw [hpq x hp] at hq
        cases hq
      · rw [List.find?_cons_of_neg _ (by rw [hg]; exact hp),
          List.find?_cons_of_neg _ hp]
    · rw [replaceFirst, if_neg hq]
      by_cases hp : p x = true
      · rw [List.find?_cons_of_pos _ hp, List.find?_cons_of_pos _ hp]
      · rw [List.find?_cons_of_neg _ hp, List.find?_cons_of_neg _ hp, ih]

/-- `get_or_create_message` only ever touches the staged message list
and the message-id counter. -/
lemma get_or_create_message_untouched (db : SyncDb) (accountId : ℕ)
    (p : Payload) (acc : PersistAcc) :
    (get_or_create_message db accountId p acc).2.2.mms = acc.mms
    ∧ (get_or_create_message db accountId p acc).2.2.newBodies = acc.newBodies
    ∧ (get_or_create_message db accountId p acc).2.2.newRecipients
        = acc.newRecipients
    ∧ (get_or_create_message db accountId p acc).2.2.newMms = acc.newMms
    ∧ (get_or_create_message db accountId p acc).2.2.nextMmId = acc.nextMmId := by
  unfold get_or_create_message
  split
  · exact ⟨rfl, rfl, rfl, rfl, rfl⟩
  · split
    · exact ⟨rfl, rfl, rfl, rfl, rfl⟩
    · split
      · exact ⟨rfl, rfl, rfl, rfl, rfl⟩
      · exact ⟨rfl, rfl, rfl, rfl, rfl⟩

/-- Update-branch equation of the payload loop. -/
lemma process_payload_update (db : SyncDb) (accountId mailboxId : ℕ)
    (acc : PersistAcc) (p : Payload)
    (hhit : (db.mailboxMessages.find? (mm_key_match mailboxId p.uid)).isSome
      = true) :
    process_payload db accountId mailboxId acc p
      = { acc with
          mms := replaceFirst (mm_key_match mailboxId p.uid)
            (apply_flag_update p) acc.mms } := by
  simp only [process_payload, hhit, if_true]

/-- Create-branch description of the payload loop: the preloaded rows
are untouched and exactly one staged row is appended, carrying the
payload's key and flag data. -/
lemma process_payload_create (db : SyncDb) (accountId mailboxId : ℕ)
    (acc : PersistAcc) (p : Payload)
    (hmiss : (db.mailboxMessages.find? (mm_key_match mailboxId p.uid)).isSome
      = false) :
    (process_payload db accountId mailboxId acc p).mms = acc.mms
    ∧ ∃ mmid msgid, (process_payload db accountId mailboxId acc p).newMms
        = acc.newMms ++
          [{ id := mmid, mailboxId := mailboxId, messageDbId := msgid,
             uid := p.uid, flags := normalize_flags p.flags,
             internalDate := p.internalDate,
             is_read := (flags_to_status p.flags).is_read,
             is_flagged := (flags_to_status p.flags).is_flagged,
             is_answered := (flags_to_status p.flags).is_answered,
             is_deleted := (flags_to_status p.flags).is_deleted,
             is_draft := (flags_to_status p.flags).is_draft }] := by
  have hcond : ¬((db.mailboxMessages.find?
      (mm_key_match mailboxId p.uid)).isSome = true) := by
    rw [hmiss]
    exact Bool.false_ne_true
  rcases hgoc : get_or_create_message db accountId p acc with ⟨m, isNew, acc1⟩
  have hpres := get_or_create_message_untouched db accountId p acc
  rw [hgoc] at hpres
  have h1 : acc1.mms = acc.mms := hpres.1
  have h4 : acc1.newMms = acc.newMms := hpres.2.2.2.1
  simp only [process_payload, if_neg hcond, hgoc]
  cases isNew
  · exact ⟨h1, acc1.nextMmId, m.id, by simp [h4]⟩
  · exact ⟨h1, acc1.nextMmId, m.id, by simp [h4]⟩

/-- A payload with a different UID leaves the `(mailbox_id, u)` view of
both row pools of the accumulator unchanged. -/
lemma process_payload_preserves_other (db : SyncDb) (accountId mailboxId : ℕ)
    (acc : PersistAcc) (q : Payload) (u : ℕ) (hne : q.uid ≠ u) :
    ((process_payload db accountId mailboxId acc q).mms.find?
        (mm_key_match mailboxId u) = acc.mms.find? (mm_key_match mailboxId u))
    ∧ ((process_payload db accountId mailboxId acc q).newMms.find?
        (mm_key_match mailboxId u)
      = acc.newMms.find? (mm_key_match mailboxId u)) := by
  cases hhit : (db.mailboxMessages.find? (mm_key_match mailboxId q.uid)).isSome
  · obtain ⟨hmm, mmid, msgid, hnew⟩ :=
      process_payload_create db accountId mailboxId acc q hhit
    refine ⟨by rw [hmm], ?_⟩
    rw [hnew, List.find?_append]
    have hrow : mm_key_match mailboxId u
        { id := mmid, mailboxId := mailboxId, messageDbId := msgid,
          uid := q.uid, flags := normalize_flags q.flags,
          internalDate := q.internalDate,
          is_read := (flags_to_status q.flags).is_read,
          is_flagged := (flags_to_status q.flags).is_flagged,
          is_answered := (flags_to_status q.flags).is_answered,
          is_deleted := (flags_to_status q.flags).is_deleted,
          is_draft := (flags_to_status q.flags).is_draft } = false := by
      simp [mm_key_match, hne]
    rw [List.find?_cons_of_neg _ (by rw [hrow]; exact Bool.false_ne_true)]
    cases acc.newMms.find? (mm_key_match mailboxId u) <;> rfl
  · rw [process_payload_update db accountId mailboxId acc q hhit]
    refine ⟨?_, rfl⟩
    exact find?_replaceFirst_disjoint _ _ _ _
      (fun x hx => mm_key_match_of_ne (Ne.symm hne) x hx)
      (fun x => mm_key_match_apply mailboxId u q x)

/-- Folding payloads whose UIDs all differ from `u` preserves the
`(mailbox_id, u)` view. -/
lemma foldl_preserves_other (db : SyncDb) (accountId mailboxId : ℕ)
    (ps : List Payload) (acc : PersistAcc) (u : ℕ)
    (h : ∀ q ∈ ps, q.uid ≠ u) :
    ((ps.foldl (process_payload db accountId mailboxId) acc).mms.find?
        (mm_key_match mailboxId u) = acc.mms.find? (mm_key_match mailboxId u))
    ∧ ((ps.foldl (process_payload db accountId mailboxId) acc).newMms.find?
        (mm_key_match mailboxId u)
      = acc.newMms.find? (mm_key_match mailboxId u)) := by
  induction ps generalizing acc with
  | nil => exact ⟨rfl, rfl⟩
  | cons q qs ih =>
    have hstep := process_payload_preserves_other db accountId mailboxId acc q u
      (h q (List.mem_cons_self _ _))
    have hrest := ih (process_payload db accountId mailboxId acc q)
      fun r hr => h r (List.mem_cons_of_mem _ hr)
    exact ⟨hrest.1.trans hstep.1, hrest.2.trans hstep.2⟩

/-- A `(mailbox_id, uid)` key already has a row whose flag data equals
the payload's. -/
def mm_settled (mailboxId : ℕ) (p : Payload) (mms : List MmRow) : Prop :=
  ∃ r, mms.find? (mm_key_match mailboxId p.uid) = some r
    ∧ apply_flag_update p r = r

/-- After one `save_mailbox_emails` call with pairwise-distinct payload
UIDs, every payload's key is settled in the stored rows. -/
lemma settled_after_first (db : SyncDb) (accountId mailboxId : ℕ)
    (payloads : List Payload)
    (hnd : (payloads.map Payload.uid).Nodup)
    (p : Payload) (hp : p ∈ payloads) :
    mm_settled mailboxId p
      (save_mailbox_emails db accountId mailboxId payloads).1.mailboxMessages := by
  obtain ⟨pre, post, rfl⟩ := List.append_of_mem hp
  have hnd2 := hnd
  rw [List.map_append, List.map_cons, List.nodup_append] at hnd2
  obtain ⟨_, hndc, hdisj⟩ := hnd2
  have hpre : ∀ q ∈ pre, q.uid ≠ p.uid := by
    intro q hq hc
    exact hdisj (List.mem_map_of_mem _ hq)
      (by rw [hc]; exact List.mem_cons_self _ _)
  have hpost : ∀ q ∈ post, q.uid ≠ p.uid := by
    intro q hq hc
    exact (List.nodup_cons.mp hndc).1
      (by rw [← hc]; exact List.mem_map_of_mem _ hq)
  have hne : (pre ++ p :: post).isEmpty = false := by
    cases pre <;> rfl
  simp only [save_mailbox_emails, hne, Bool.false_eq_true, if_false,
    List.foldl_append, List.foldl_cons]
  set acc0 : PersistAcc :=
    { mms := db.mailboxMessages, newMessages := [], newBodies := [],
      newRecipients := [], newMms := [], nextMessageId := db.nextMessageId,
      nextMmId := db.nextMmId } with hacc0
  have hpre2 := foldl_preserves_other db accountId mailboxId pre acc0 p.uid hpre
  set accPre := pre.foldl (process_payload db accountId mailboxId) acc0
    with haccPre
  cases hdb : db.mailboxMessages.find? (mm_key_match mailboxId p.uid) with
  | some r0 =>
    have hhit : (db.mailboxMessages.find?
        (mm_key_match mailboxId p.uid)).isSome = true := by
      rw [hdb]
      rfl
    rw [process_payload_update db accountId mailboxId accPre p hhit]
    set stepped : PersistAcc :=
      { accPre with
        mms := replaceFirst (mm_key_match mailboxId p.uid)
          (apply_flag_update p) accPre.mms } with hstepped
    have hafter := foldl_preserves_other db accountId mailboxId post stepped
      p.uid hpost
    refine ⟨apply_flag_update p r0, ?_, apply_flag_update_idem p r0⟩
    rw [List.find?_append, hafter.1, hstepped]
    have hview : (replaceFirst (mm_key_match mailboxId p.uid)
        (apply_flag_update p) accPre.mms).find? (mm_key_match mailboxId p.uid)
        = some (apply_flag_update p r0) := by
      rw [find?_replaceFirst_self _ _ _
        (fun x => mm_key_match_apply mailboxId p.uid p x), hpre2.1]
      rw [hacc0]
      rw [hdb]
      rfl
    rw [hview]
    rfl
  | none =>
    have hmiss : (db.mailboxMessages.find?
        (mm_key_match mailboxId p.uid)).isSome = false := by
      rw [hdb]
      rfl
    obtain ⟨hmm, mmid, msgid, hnew⟩ :=
      process_payload_create db accountId mailboxId accPre p hmiss
    have hafter := foldl_preserves_other db accountId mailboxId post
      (process_payload db accountId mailboxId accPre p) p.uid hpost
    set row : MmRow :=
      { id := mmid, mailboxId := mailboxId, messageDbId := msgid,
        uid := p.uid, flags := normalize_flags p.flags,
        internalDate := p.internalDate,
        is_read := (flags_to_status p.flags).is_read,
        is_flagged := (flags_to_status p.flags).is_flagged,
        is_answered := (flags_to_status p.flags).is_answered,
        is_deleted := (flags_to_status p.flags).is_deleted,
        is_draft := (flags_to_status p.flags).is_draft } with hrow
    refine ⟨row, ?_, rfl⟩
    rw [List.find?_append, hafter.1, hmm, hpre2.1, hacc0]
    have hnone : db.mailboxMessages.find? (mm_key_match mailboxId p.uid)
        = none := hdb
    rw [hnone]
    rw [hafter.2, hnew, List.find?_append, hpre2.2, hacc0]
    have hmatch : mm_key_match mailboxId p.uid row = true := by
      simp [mm_key_match, hrow]
    rw [show ([] : List MmRow).find? (mm_key_match mailboxId p.uid) = none
      from rfl]
    rw [List.find?_cons_of_pos _ hmatch]
    rfl

/-- When every payload's key is settled, `save_mailbox_emails` is a
complete no-op reporting zero inserts. -/
lemma save_on_settled (db : SyncDb) (accountId mailboxId : ℕ)
    (payloads : List Payload)
    (hset : ∀ p ∈ payloads, mm_settled mailboxId p db.mailboxMessages) :
    save_mailbox_emails db accountId mailboxId payloads = (db, 0, []) := by
  cases payloads with
  | nil => rfl
  | cons p0 ps0 =>
    set acc0 : PersistAcc :=
      { mms := db.mailboxMessages, newMessages := [], newBodies := [],
        newRecipients := [], newMms := [], nextMessageId := db.nextMessageId,
        nextMmId := db.nextMmId } with hacc0
    have hstep : ∀ q ∈ p0 :: ps0,
        process_payload db accountId mailboxId acc0 q = acc0 := by
      intro q hq
      obtain ⟨r, hr, hfix⟩ := hset q hq
      have hhit : (db.mailboxMessages.find?
          (mm_key_match mailboxId q.uid)).isSome = true := by
        rw [hr]
        rfl
      rw [process_payload_update db accountId mailboxId acc0 q hhit]
      have hid : replaceFirst (mm_key_match mailboxId q.uid)
          (apply_flag_update q) acc0.mms = acc0.mms := by
        apply replaceFirst_eq_self
        intro x hx
        rw [hacc0] at hx
        simp only at hx
        rw [hr] at hx
        cases hx
        exact hfix
      rw [hid]
    have hfold : ∀ (ps : List Payload), (∀ q ∈ ps,
        process_payload db accountId mailboxId acc0 q = acc0) →
        ps.foldl (process_payload db accountId mailboxId) acc0 = acc0 := by
      intro ps
      induction ps with
      | nil => intro _; rfl
      | cons q qs ih =>
        intro hall
        rw [List.foldl_cons, hall q (List.mem_cons_self _ _)]
        exact ih fun r hr => hall r (List.mem_cons_of_mem _ hr)
    have hne : (p0 :: ps0).isEmpty = false := rfl
    simp only [save_mailbox_emails, hne, Bool.false_eq_true, if_false,
      hfold _ hstep]
    simp [hacc0]

/-- The columns of a `mailbox_messages` row that a flag refresh must
not change (everything except the flag string and the five booleans). -/
def mm_immutable_cols (old new : MmRow) : Prop :=
  new.id = old.id ∧ new.mailboxId = old.mailboxId ∧ new.uid = old.uid
  ∧ new.messageDbId = old.messageDbId ∧ new.internalDate = old.internalDate

/-- A flag refresh of one row preserves the immutable columns,
pointwise along a Forall₂ chain. -/
lemma forall2_replaceFirst (q : MmRow → Bool) (p : Payload) :
    ∀ {l l' : List MmRow}, List.Forall₂ mm_immutable_cols l l' →
      List.Forall₂ mm_immutable_cols l
        (replaceFirst q (apply_flag_update p) l') := by
  intro l l' h
  induction h with
  | nil => exact List.Forall₂.nil
  | @cons x y l₁ l₂ hxy htail ih =>
    rw [replaceFirst]
    by_cases hq : q y = true
    · rw [if_pos hq]
      refine List.Forall₂.cons ?_ htail
      obtain ⟨c1, c2, c3, c4, c5⟩ := apply_flag_update_cols p y
      exact ⟨c1.trans hxy.1, c2.trans hxy.2.1, c3.trans hxy.2.2.1,
        c4.trans hxy.2.2.2.1, c5.trans hxy.2.2.2.2⟩
    · rw [if_neg hq]
      exact List.Forall₂.cons hxy ih

/-- When every payload's key already has a stored row, the fold only
refreshes flags: the staged lists and counters stay empty/unchanged and
the preloaded rows keep their immutable columns. -/
lemma foldl_all_update (db : SyncDb) (accountId mailboxId : ℕ)
    (ps : List Payload)
    (hex : ∀ p ∈ ps, (db.mailboxMessages.find?
      (mm_key_match mailboxId p.uid)).isSome = true) :
    ∀ acc : PersistAcc,
      List.Forall₂ mm_immutable_cols db.mailboxMessages acc.mms →
      ((ps.foldl (process_payload db accountId mailboxId) acc).newMessages
          = acc.newMessages
      ∧ (ps.foldl (process_payload db accountId mailboxId) acc).newBodies
          = acc.newBodies
      ∧ (ps.foldl (process_payload db accountId mailboxId) acc).newRecipients
          = acc.newRecipients
      ∧ (ps.foldl (process_payload db accountId mailboxId) acc).newMms
          = acc.newMms
      ∧ (ps.foldl (process_payload db accountId mailboxId) acc).nextMessageId
          = acc.nextMessageId
      ∧ (ps.foldl (process_payload db accountId mailboxId) acc).nextMmId
          = acc.nextMmId
      ∧ List.Forall₂ mm_immutable_cols db.mailboxMessages
          (ps.foldl (process_payload db accountId mailboxId) acc).mms) := by
  induction ps with
  | nil => exact fun acc hacc => ⟨rfl, rfl, rfl, rfl, rfl, rfl, hacc⟩
  | cons q qs ih =>
    intro acc hacc
    have hq := hex q (List.mem_cons_self _ _)
    have hstep := process_payload_update db accountId mailboxId acc q hq
    simp only [List.foldl_cons, hstep]
    exact ih (fun p hp => hex p (List.mem_cons_of_mem _ hp)) _
      (forall2_replaceFirst _ q hacc)

/-- C5: `save_mailbox_emails` is idempotent — a second call with the
identical batch (pairwise-distinct UIDs) leaves the database state
unchanged and reports `inserted_count = 0` with an empty id list — and,
for a batch whose every `(folder_id, uid)` pair already has a
FolderMessage, the call only refreshes that row's flags and derived
booleans: no Message, Body, Recipient or FolderMessage row is created,
ids/keys/dates are untouched, and nothing is counted as new. -/
theorem persist_batch_idempotent (db : SyncDb) (accountId mailboxId : ℕ)
    (payloads : List Payload)
    (hnd : (payloads.map Payload.uid).Nodup) :
    (save_mailbox_emails
        (save_mailbox_emails db accountId mailboxId payloads).1
        accountId mailboxId payloads
      = ((save_mailbox_emails db accountId mailboxId payloads).1, 0, []))
    ∧ ((∀ p ∈ payloads, ∃ r ∈ db.mailboxMessages,
          r.mailboxId = mailboxId ∧ r.uid = p.uid) →
        (save_mailbox_emails db accountId mailboxId payloads).2.1 = 0
        ∧ (save_mailbox_emails db accountId mailboxId payloads).2.2 = []
        ∧ (save_mailbox_emails db accountId mailboxId payloads).1.messages
            = db.messages
        ∧ (save_mailbox_emails db accountId mailboxId payloads).1.bodies
            = db.bodies
        ∧ (save_mailbox_emails db accountId mailboxId payloads).1.recipients
            = db.recipients
        ∧ List.Forall₂ mm_immutable_cols db.mailboxMessages
            (save_mailbox_emails db accountId mailboxId
              payloads).1.mailboxMessages) := by
  constructor
  · exact save_on_settled _ accountId mailboxId payloads
      fun p hp => settled_after_first db accountId mailboxId payloads hnd p hp
  · intro hall
    have hex : ∀ p ∈ payloads, (db.mailboxMessages.find?
        (mm_key_match mailboxId p.uid)).isSome = true := by
      intro p hp
      obtain ⟨r, hr, hm, hu⟩ := hall p hp
      exact List.find?_isSome.mpr ⟨r, hr, by simp [mm_key_match, hm, hu]⟩
    cases payloads with
    | nil =>
      exact ⟨rfl, rfl, rfl, rfl, rfl,
        List.forall₂_same.mpr fun x _ => ⟨rfl, rfl, rfl, rfl, rfl⟩⟩
    | cons p0 ps0 =>
      have hinv := foldl_all_update db accountId mailboxId (p0 :: ps0) hex
        { mms := db.mailboxMessages, newMessages := [], newBodies := [],
          newRecipients := [], newMms := [],
          nextMessageId := db.nextMessageId, nextMmId := db.nextMmId }
        (List.forall₂_same.mpr fun x _ => ⟨rfl, rfl, rfl, rfl, rfl⟩)
      obtain ⟨h1, h2, h3, h4, _, _, h7⟩ := hinv
      have hne : (p0 :: ps0).isEmpty = false := rfl
      simp only [save_mailbox_emails, hne, Bool.false_eq_true, if_false]
      refine ⟨by rw [h4]; rfl, by rw [h4]; rfl, by rw [h1]; simp,
        by rw [h2]; simp, by rw [h3]; simp, ?_⟩
      have : ((p0 :: ps0).foldl (process_payload db accountId mailboxId)
          { mms := db.mailboxMessages, newMessages := [], newBodies := [],
            newRecipients := [], newMms := [],
            nextMessageId := db.nextMessageId,
            nextMmId := db.nextMmId }).mms ++
          ((p0 :: ps0).foldl (process_payload db accountId mailboxId)
          { mms := db.mailboxMessages, newMessages := [], newBodies := [],
            newRecipients := [], newMms := [],
            nextMessageId := db.nextMessageId,
            nextMmId := db.nextMmId }).newMms
          = ((p0 :: ps0).foldl (process_payload db accountId mailboxId)
          { mms := db.mailboxMessages, newMessages := [], newBodies := [],
            newRecipients := [], newMms := [],
            nextMessageId := db.nextMessageId,
            nextMmId := db.nextMmId }).mms := by
        rw [h4]
        simp
      rw [this]
      exact h7

/-- Concrete database with one stored message appearing at
`(mailbox 5, uid 10)`, used by the idempotence witness. -/
def c5db : SyncDb :=
  { messages := [{
      id := 0
      accountId := 1
      messageId := some "m0".data
      subject := none
      senderName := none
      senderAddress := none
      snippet := none
      receivedAt := none
      size := none
      phishingLevel := PhishingLevel.NORMAL
      phishingScore := 0
      phishingReason := none
      phishingStatus := PhishingStatus.PENDING }]
    bodies := []
    recipients := []
    mailboxMessages := [{
      id := 0
      mailboxId := 5
      messageDbId := 0
      uid := 10
      flags := none
      internalDate := none
      is_read := false
      is_flagged := false
      is_answered := false
      is_deleted := false
      is_draft := false }]
    nextMessageId := 1
    nextMmId := 1 }

/-- Concrete payload used by the idempotence witness. -/
def c5payload (u : ℕ) (mid : Str) : Payload :=
  { uid := u
    flags := ["\\Seen".data]
    internalDate := some 1000
    size := some 42
    messageId := some mid
    subject := some "hello".data
    senderName := none
    senderAddress := some "a@b.c".data
    recipients :=
      [{ recipientType := "TO".data, name := none, address := some "x@y.z".data }]
    contentText := some "body".data
    contentHtml := none
    snippet := some "body".data
    receivedAt := none
    phishingLevel := PhishingLevel.NORMAL
    phishingScore := 0
    phishingReason := none
    phishingStatus := PhishingStatus.PENDING }

/-- Witness for `persist_batch_idempotent`: a two-payload batch, one
payload refreshing the pre-existing `(5, 10)` row and one inserting
`(5, 11)`. -/
theorem persist_batch_idempotent_witness :
    (([c5payload 10 "m10".data, c5payload 11 "m11".data].map
        Payload.uid).Nodup)
    ∧ save_mailbox_emails
        (save_mailbox_emails c5db 1 5
          [c5payload 10 "m10".data, c5payload 11 "m11".data]).1 1 5
        [c5payload 10 "m10".data, c5payload 11 "m11".data]
      = ((save_mailbox_emails c5db 1 5
          [c5payload 10 "m10".data, c5payload 11 "m11".data]).1, 0, []) :=
  ⟨by simp [c5payload], (persist_batch_idempotent c5db 1 5
    [c5payload 10 "m10".data, c5payload 11 "m11".data]
    (by simp [c5payload])).1⟩

/-! ## Cursor pagination (`EmailCrud.get_by_mailbox_ids_cursor`,
`app/crud/email_crud.py` lines 73-151)

A `mailbox_messages` row is projected to the two cursor-key columns.
`MailboxMessageEntity.internal_date` is a nullable column
(`nullable=True`; `parse_flags_and_internal_date` yields `None` when
the IMAP `INTERNALDATE` item is missing or unparseable, and the value
flows into the row), so it is modelled as `Option ℤ` over integer
timestamps.  `rows` is the result of the `mailbox_id.in_(mailbox_ids)`
restriction; the SQL `ORDER BY internal_date DESC, id DESC` is
modelled by sorting with `pageOrd`, in which a NULL `internal_date` is
below every non-NULL one: both MySQL (the engine of the production
configuration, `core/config.py`) and SQLite (the test configuration)
treat NULL as the smallest value in `ORDER BY`, so `DESC` places
NULL-date rows last.  A SQL comparison against a NULL `internal_date`
is not TRUE, so the cursor restriction of the query drops NULL-date
rows. -/

/-- Cursor-key projection of a `mailbox_messages` row; `date = none`
is a NULL `internal_date`. -/
structure PageRow where
  id : ℕ
  date : Option ℤ
deriving DecidableEq, Repr

/-- Order of the `internal_date` column in the query: NULL below every
non-NULL value, non-NULL values by integer order. -/
def dLt : Option ℤ → Option ℤ → Prop
  | none, none => False
  | none, some _ => True
  | some _, none => False
  | some x, some y => x < y

instance : (x y : Option ℤ) → Decidable (dLt x y)
  | none, none => isFalse id
  | none, some _ => isTrue trivial
  | some _, none => isFalse id
  | some x, some y => inferInstanceAs (Decidable (x < y))

/-- Strict lexicographic order on `(internal_date, id)` keys, NULL
dates lowest. -/
def keyLt (a b : Option ℤ × ℕ) : Prop :=
  dLt a.1 b.1 ∨ (a.1 = b.1 ∧ a.2 < b.2)

instance (a b : Option ℤ × ℕ) : Decidable (keyLt a b) :=
  inferInstanceAs (Decidable (dLt a.1 b.1 ∨ (a.1 = b.1 ∧ a.2 < b.2)))

/-- The combined sort key of a row. -/
def rowKey (r : PageRow) : Option ℤ × ℕ := (r.date, r.id)

/-- The key encoded by an emitted cursor pair `(cursor_date,
cursor_id)`: the guard makes an emitted cursor date always
non-NULL. -/
def cursorKey (c : ℤ × ℕ) : Option ℤ × ℕ := (some c.1, c.2)

/-- Row ordering of the query: `a` precedes `b` under
`(internal_date DESC, id DESC)`. -/
def pageOrd (a b : PageRow) : Prop :=
  keyLt (rowKey b) (rowKey a) ∨ rowKey a = rowKey b

instance (a b : PageRow) : Decidable (pageOrd a b) :=
  inferInstanceAs
    (Decidable (keyLt (rowKey b) (rowKey a) ∨ rowKey a = rowKey b))

/-- Transitivity of the date order. -/
lemma dLt_trans {a b c : Option ℤ} (h1 : dLt a b) (h2 : dLt b c) :
    dLt a c := by
  cases a <;> cases b <;> cases c <;> simp only [dLt] at *
  omega

/-- Irreflexivity of the date order. -/
lemma dLt_irrefl : ∀ (a : Option ℤ), ¬dLt a a
  | none => id
  | some v => lt_irrefl v

/-- Two dates neither of which is below the other are equal. -/
lemma dLt_conn {a b : Option ℤ} (h1 : ¬dLt a b) (h2 : ¬dLt b a) :
    a = b := by
  cases a <;> cases b
  · rfl
  · exact absurd trivial h1
  · exact absurd trivial h2
  · simp only [dLt] at h1 h2
    exact congrArg some (le_antisymm (not_lt.mp h2) (not_lt.mp h1))

/-- Transitivity of the strict key order. -/
lemma keyLt_trans {a b c : Option ℤ × ℕ} (h1 : keyLt a b) (h2 : keyLt b c) :
    keyLt a c := by
  rcases h1 with h1 | ⟨h1, h1b⟩
  · rcases h2 with h2 | ⟨h2, _⟩
    · exact Or.inl (dLt_trans h1 h2)
    · exact Or.inl (by rw [← h2]; exact h1)
  · rcases h2 with h2 | ⟨h2, h2b⟩
    · exact Or.inl (by rw [h1]; exact h2)
    · exact Or.inr ⟨h1.trans h2, h1b.trans h2b⟩

/-- Irreflexivity of the strict key order. -/
lemma keyLt_irrefl (a : Option ℤ × ℕ) : ¬keyLt a a := by
  rintro (h | ⟨-, h⟩)
  · exact dLt_irrefl a.1 h
  · omega

instance : IsTotal PageRow pageOrd := by
  constructor
  intro a b
  by_cases h1 : keyLt (rowKey b) (rowKey a)
  · exact Or.inl (Or.inl h1)
  · by_cases h2 : keyLt (rowKey a) (rowKey b)
    · exact Or.inr (Or.inl h2)
    · refine Or.inl (Or.inr ?_)
      unfold keyLt at h1 h2
      push_neg at h1 h2
      have hd : (rowKey a).1 = (rowKey b).1 := dLt_conn h2.1 h1.1
      have hn : (rowKey a).2 = (rowKey b).2 := by
        have ha := h1.2 hd.symm
        have hb := h2.2 hd
        omega
      exact Prod.ext hd hn

instance : IsTrans PageRow pageOrd := by
  constructor
  intro a b c h1 h2
  rcases h1 with h1 | h1
  · rcases h2 with h2 | h2
    · exact Or.inl (keyLt_trans h2 h1)
    · exact Or.inl (h2 ▸ h1)
  · rcases h2 with h2 | h2
    · exact Or.inl (h1 ▸ h2)
    · exact Or.inr (h1.trans h2)

/-- The cursor restriction applied by the query (`internal_date <=
cursor_date AND NOT (internal_date == cursor_date AND id >=
cursor_id)`): a row passes when the condition evaluates to TRUE, and a
NULL `internal_date` makes both comparisons non-TRUE, so the row is
dropped. -/
def cursorPred (cd : ℤ) (cid : ℕ) (r : PageRow) : Prop :=
  match r.date with
  | none => False
  | some d => d ≤ cd ∧ ¬(d = cd ∧ cid ≤ r.id)

instance (cd : ℤ) (cid : ℕ) (r : PageRow) : Decidable (cursorPred cd cid r) := by
  unfold cursorPred
  cases r.date with
  | none => exact isFalse id
  | some d => exact inferInstanceAs (Decidable (d ≤ cd ∧ ¬(d = cd ∧ cid ≤ r.id)))

/-- The cursor restriction holds exactly on the non-NULL-date rows
strictly below the cursor key. -/
lemma cursorPred_iff (cd : ℤ) (cid : ℕ) (r : PageRow) :
    cursorPred cd cid r
      ↔ r.date.isSome = true ∧ keyLt (rowKey r) (cursorKey (cd, cid)) := by
  unfold cursorPred keyLt rowKey cursorKey
  cases hr : r.date with
  | none => simp [dLt]
  | some d =>
    simp only [dLt, Option.isSome_some, Option.some.injEq, true_and]
    omega

/-- The base row set of one query: all rows, or the rows passing the
cursor restriction. -/
def cursor_filtered (rows : List PageRow) (cursor : Option (ℤ × ℕ)) :
    List PageRow :=
  match cursor with
  | none => rows
  | some c => rows.filter fun r => decide (cursorPred c.1 c.2 r)

/-- The `ORDER BY internal_date DESC, id DESC` result set of one query. -/
def sorted_rows (rows : List PageRow) (cursor : Option (ℤ × ℕ)) : List PageRow :=
  List.insertionSort pageOrd (cursor_filtered rows cursor)

/-- Cursor emission for the last served row: under the
`if last_item.internal_date:` guard the cursor is the row's
`(internal_date, id)` pair, and for a NULL `internal_date` no cursor
is emitted (a `datetime` is falsy only when it is `None`). -/
def emit_cursor (last : PageRow) : Option (ℤ × ℕ) :=
  match last.date with
  | some d => some (d, last.id)
  | none => none

/-- `EmailCrud.get_by_mailbox_ids_cursor`: filter by cursor, order by
`(internal_date DESC, id DESC)`, fetch `limit + 1` rows; when the extra
row exists, serve `limit` rows and emit the last served row's cursor
(`messages_list[-1]`, guarded by `if last_item.internal_date:`). -/
def get_by_mailbox_ids_cursor (rows : List PageRow) (limit : ℕ)
    (cursor : Option (ℤ × ℕ)) : List PageRow × Option (ℤ × ℕ) :=
  if limit < ((sorted_rows rows cursor).take (limit + 1)).length then
    match (((sorted_rows rows cursor).take (limit + 1)).take limit).getLast? with
    | some last =>
      (((sorted_rows rows cursor).take (limit + 1)).take limit,
        emit_cursor last)
    | none => (((sorted_rows rows cursor).take (limit + 1)).take limit, none)
  else ((sorted_rows rows cursor).take (limit + 1), none)

/-- Pages obtained by consistently following `next_cursor`, starting
from the cursorless first query; once a query returns no cursor the
chain is exhausted. -/
def page_chain (rows : List PageRow) (limit : ℕ) : ℕ → List PageRow × Option (ℤ × ℕ)
  | 0 => get_by_mailbox_ids_cursor rows limit none
  | n + 1 =>
    match (page_chain rows limit n).2 with
    | none => ([], none)
    | some c => get_by_mailbox_ids_cursor rows limit (some c)

/-! ## Lemmas on cursor pagination -/

/-- Cursor emission on a non-NULL date. -/
lemma emit_cursor_some (last : PageRow) (d : ℤ) (hd : last.date = some d) :
    emit_cursor last = some (d, last.id) := by
  unfold emit_cursor
  rw [hd]

/-- Cursor emission on a NULL date. -/
lemma emit_cursor_none (last : PageRow) (hd : last.date = none) :
    emit_cursor last = none := by
  unfold emit_cursor
  rw [hd]

/-- Equation of the positive branch (an extra row exists). -/
lemma get_cursor_pos (rows : List PageRow) (limit : ℕ) (cursor : Option (ℤ × ℕ))
    (h : limit < ((sorted_rows rows cursor).take (limit + 1)).length)
    (last : PageRow)
    (hl : (((sorted_rows rows cursor).take (limit + 1)).take limit).getLast?
      = some last) :
    get_by_mailbox_ids_cursor rows limit cursor
      = (((sorted_rows rows cursor).take (limit + 1)).take limit,
          emit_cursor last) := by
  unfold get_by_mailbox_ids_cursor
  rw [if_pos h, hl]

/-- Equation of the negative branch (no extra row). -/
lemma get_cursor_neg (rows : List PageRow) (limit : ℕ) (cursor : Option (ℤ × ℕ))
    (h : ¬limit < ((sorted_rows rows cursor).take (limit + 1)).length) :
    get_by_mailbox_ids_cursor rows limit cursor
      = ((sorted_rows rows cursor).take (limit + 1), none) := by
  unfold get_by_mailbox_ids_cursor
  rw [if_neg h]

/-- Equation of the positive branch when the served prefix is empty
(only reachable with `limit = 0`, where CPython's `messages_list[-1]`
would raise). -/
lemma get_cursor_pos_empty (rows : List PageRow) (limit : ℕ)
    (cursor : Option (ℤ × ℕ))
    (h : limit < ((sorted_rows rows cursor).take (limit + 1)).length)
    (hl : (((sorted_rows rows cursor).take (limit + 1)).take limit).getLast?
      = none) :
    get_by_mailbox_ids_cursor rows limit cursor
      = (((sorted_rows rows cursor).take (limit + 1)).take limit, none) := by
  unfold get_by_mailbox_ids_cursor
  rw [if_pos h, hl]

/-- With a positive limit, the served prefix of a long-enough page has
a last element. -/
lemma served_getLast_some (rows : List PageRow) (limit : ℕ)
    (cursor : Option (ℤ × ℕ)) (hlim : 1 ≤ limit)
    (h : limit < ((sorted_rows rows cursor).take (limit + 1)).length) :
    ∃ last, (((sorted_rows rows cursor).take (limit + 1)).take limit).getLast?
      = some last := by
  have hne : ((sorted_rows rows cursor).take (limit + 1)).take limit ≠ [] := by
    have hlen : (((sorted_rows rows cursor).take (limit + 1)).take limit).length
        = limit ⊓ ((sorted_rows rows cursor).take (limit + 1)).length :=
      List.length_take _ _
    have hmin : limit ⊓ ((sorted_rows rows cursor).take (limit + 1)).length
        = limit := min_eq_left (le_of_lt h)
    intro hnil
    rw [hnil, List.length_nil] at hlen
    omega
  exact Option.isSome_iff_exists.mp (List.getLast?_isSome.mpr hne)

/-- Served rows come from the underlying row set. -/
lemma page_subset (rows : List PageRow) (limit : ℕ) (cursor : Option (ℤ × ℕ)) :
    ∀ r ∈ (get_by_mailbox_ids_cursor rows limit cursor).1, r ∈ rows := by
  intro r hr
  have hbase : ∀ x ∈ cursor_filtered rows cursor, x ∈ rows := by
    intro x hx
    cases cursor with
    | none => exact hx
    | some c => exact (List.filter_sublist _).subset hx
  have hsorted : ∀ x ∈ sorted_rows rows cursor, x ∈ rows :=
    fun x hx => hbase x ((List.perm_insertionSort pageOrd _).subset hx)
  by_cases h : limit < ((sorted_rows rows cursor).take (limit + 1)).length
  · cases hl : (((sorted_rows rows cursor).take (limit + 1)).take limit).getLast?
      with
    | some last =>
      rw [get_cursor_pos rows limit cursor h last hl] at hr
      exact hsorted r ((List.take_sublist _ _).subset
        ((List.take_sublist _ _).subset hr))
    | none =>
      rw [get_cursor_pos_empty rows limit cursor h hl] at hr
      exact hsorted r ((List.take_sublist _ _).subset
        ((List.take_sublist _ _).subset hr))
  · rw [get_cursor_neg rows limit cursor h] at hr
    exact hsorted r ((List.take_sublist _ _).subset hr)

/-- Served rows of a cursored query are strictly below the cursor key. -/
lemma mem_page_keyLt (rows : List PageRow) (limit : ℕ) (k : ℤ × ℕ) :
    ∀ r ∈ (get_by_mailbox_ids_cursor rows limit (some k)).1,
      keyLt (rowKey r) (cursorKey k) := by
  intro r hr
  have hbase : ∀ x ∈ cursor_filtered rows (some k),
      keyLt (rowKey x) (cursorKey k) := by
    intro x hx
    have := (List.mem_filter.mp hx).2
    exact ((cursorPred_iff k.1 k.2 x).mp (of_decide_eq_true this)).2
  have hsorted : ∀ x ∈ sorted_rows rows (some k),
      keyLt (rowKey x) (cursorKey k) :=
    fun x hx => hbase x ((List.perm_insertionSort pageOrd _).subset hx)
  by_cases h : limit < ((sorted_rows rows (some k)).take (limit + 1)).length
  · cases hl : (((sorted_rows rows (some k)).take (limit + 1)).take
        limit).getLast? with
    | some last =>
      rw [get_cursor_pos rows limit (some k) h last hl] at hr
      exact hsorted r ((List.take_sublist _ _).subset
        ((List.take_sublist _ _).subset hr))
    | none =>
      rw [get_cursor_pos_empty rows limit (some k) h hl] at hr
      exact hsorted r ((List.take_sublist _ _).subset
        ((List.take_sublist _ _).subset hr))
  · rw [get_cursor_neg rows limit (some k) h] at hr
    exact hsorted r ((List.take_sublist _ _).subset hr)

/-- The last element named by `getLast?` is a member. -/
lemma getLast?_mem {α : Type _} : ∀ {l : List α} {a : α},
    l.getLast? = some a → a ∈ l := by
  intro l
  induction l with
  | nil => intro a h; cases h
  | cons y ys ih =>
    intro a h
    cases ys with
    | nil =>
      cases h
      exact List.mem_singleton.mpr rfl
    | cons z zs =>
      rw [List.getLast?_cons_cons] at h
      exact List.mem_cons_of_mem _ (ih h)

/-- In a pairwise-related list, everything is related to the last
element (for a reflexive relation). -/
lemma pairwise_rel_getLast {α : Type _} {R : α → α → Prop}
    (hrefl : ∀ x, R x x) :
    ∀ (l : List α), List.Pairwise R l → ∀ a, l.getLast? = some a →
      ∀ x ∈ l, R x a := by
  intro l
  induction l with
  | nil => intro _ a ha; cases ha
  | cons y ys ih =>
    intro hp a ha x hx
    cases ys with
    | nil =>
      cases ha
      rw [List.mem_singleton.mp hx]
      exact hrefl _
    | cons z zs =>
      rw [List.getLast?_cons_cons] at ha
      rcases List.mem_cons.mp hx with rfl | hx
      · exact (List.pairwise_cons.mp hp).1 a (getLast?_mem ha)
      · exact ih (List.pairwise_cons.mp hp).2 a ha x hx

/-- The served page is sorted. -/
lemma page_sorted (rows : List PageRow) (limit : ℕ)
    (cursor : Option (ℤ × ℕ)) :
    List.Sorted pageOrd (get_by_mailbox_ids_cursor rows limit cursor).1 := by
  have hs : List.Sorted pageOrd (sorted_rows rows cursor) :=
    List.sorted_insertionSort pageOrd _
  by_cases h : limit < ((sorted_rows rows cursor).take (limit + 1)).length
  · cases hl : (((sorted_rows rows cursor).take (limit + 1)).take
        limit).getLast? with
    | some last =>
      rw [get_cursor_pos rows limit cursor h last hl]
      exact List.Pairwise.sublist
        ((List.take_sublist _ _).trans (List.take_sublist _ _)) hs
    | none =>
      rw [get_cursor_pos_empty rows limit cursor h hl]
      exact List.Pairwise.sublist
        ((List.take_sublist _ _).trans (List.take_sublist _ _)) hs
  · rw [get_cursor_neg rows limit cursor h]
    exact List.Pairwise.sublist (List.take_sublist _ _) hs

/-- When a query emits a next cursor, the cursor encodes the key of
the last served row, and every served row is at or above it in the
page order. -/
lemma next_cursor_last (rows : List PageRow) (limit : ℕ)
    (cursor : Option (ℤ × ℕ)) (k : ℤ × ℕ)
    (hk : (get_by_mailbox_ids_cursor rows limit cursor).2 = some k) :
    ∃ last, last ∈ (get_by_mailbox_ids_cursor rows limit cursor).1
      ∧ cursorKey k = rowKey last
      ∧ ∀ r ∈ (get_by_mailbox_ids_cursor rows limit cursor).1,
          pageOrd r last := by
  have hsorted := page_sorted rows limit cursor
  by_cases h : limit < ((sorted_rows rows cursor).take (limit + 1)).length
  · cases hl : (((sorted_rows rows cursor).take (limit + 1)).take limit).getLast?
      with
    | some last =>
      have heq := get_cursor_pos rows limit cursor h last hl
      rw [heq] at hk hsorted ⊢
      have hk2 : emit_cursor last = some k := by
        simp only [] at hk
        exact hk
      cases hd : last.date with
      | none =>
        rw [emit_cursor_none last hd] at hk2
        cases hk2
      | some d =>
        rw [emit_cursor_some last d hd] at hk2
        have hkd : k = (d, last.id) := by
          cases hk2
          rfl
        have hkval : cursorKey k = rowKey last := by
          rw [hkd]
          unfold cursorKey rowKey
          rw [hd]
        refine ⟨last, getLast?_mem hl, hkval, ?_⟩
        have hrefl : ∀ x : PageRow, pageOrd x x := fun x => Or.inr rfl
        exact pairwise_rel_getLast hrefl _ hsorted last hl
    | none =>
      rw [get_cursor_pos_empty rows limit cursor h hl] at hk
      cases hk
  · rw [get_cursor_neg rows limit cursor h] at hk
    cases hk

/-- Every chain entry is either the exhausted sentinel or an actual
query result. -/
lemma chain_is_get (rows : List PageRow) (limit : ℕ) :
    ∀ n, page_chain rows limit n = ([], none)
      ∨ ∃ cursor, page_chain rows limit n
          = get_by_mailbox_ids_cursor rows limit cursor := by
  intro n
  cases n with
  | zero => exact Or.inr ⟨none, rfl⟩
  | succ m =>
    cases hc : (page_chain rows limit m).2 with
    | none =>
      refine Or.inl ?_
      unfold page_chain
      rw [hc]
    | some c =>
      refine Or.inr ⟨some c, ?_⟩
      unfold page_chain
      rw [hc]

/-- Chain rows come from the underlying row set. -/
lemma chain_page_subset (rows : List PageRow) (limit : ℕ) (n : ℕ) :
    ∀ r ∈ (page_chain rows limit n).1, r ∈ rows := by
  intro r hr
  rcases chain_is_get rows limit n with h | ⟨cursor, h⟩
  · rw [h] at hr
    cases hr
  · rw [h] at hr
    exact page_subset rows limit cursor r hr

/-- Chained cursors strictly decrease. -/
lemma chain_cursor_down (rows : List PageRow) (limit : ℕ) (n : ℕ) (k2 : ℤ × ℕ)
    (h : (page_chain rows limit (n + 1)).2 = some k2) :
    ∃ k1, (page_chain rows limit n).2 = some k1
      ∧ keyLt (cursorKey k2) (cursorKey k1) := by
  cases hc : (page_chain rows limit n).2 with
  | none =>
    unfold page_chain at h
    rw [hc] at h
    cases h
  | some k1 =>
    unfold page_chain at h
    rw [hc] at h
    obtain ⟨last, hmem, hkey, _⟩ := next_cursor_last rows limit (some k1) k2 h
    refine ⟨k1, rfl, ?_⟩
    rw [hkey]
    exact mem_page_keyLt rows limit k1 last hmem

/-- Chained cursors decrease over any distance. -/
lemma chain_cursor_le (rows : List PageRow) (limit : ℕ) :
    ∀ (d n : ℕ) (k2 : ℤ × ℕ), (page_chain rows limit (n + d)).2 = some k2 →
      ∃ k1, (page_chain rows limit n).2 = some k1
        ∧ (keyLt (cursorKey k2) (cursorKey k1) ∨ k2 = k1) := by
  intro d
  induction d with
  | zero => exact fun n k2 h => ⟨k2, h, Or.inr rfl⟩
  | succ e ih =>
    intro n k2 h
    obtain ⟨k0, hk0, hlt⟩ := chain_cursor_down rows limit (n + e) k2 h
    obtain ⟨k1, hk1, hle⟩ := ih n k0 hk0
    refine ⟨k1, hk1, Or.inl ?_⟩
    rcases hle with hle | rfl
    · exact keyLt_trans hlt hle
    · exact hlt

/-- Rows of a later chain page are strictly below the cursor emitted at
an earlier index. -/
lemma chain_elem_lt (rows : List PageRow) (limit : ℕ) (n d : ℕ)
    (r2 : PageRow) (h : r2 ∈ (page_chain rows limit (n + d + 1)).1) :
    ∃ k, (page_chain rows limit n).2 = some k
      ∧ keyLt (rowKey r2) (cursorKey k) := by
  cases hc : (page_chain rows limit (n + d)).2 with
  | none =>
    exfalso
    have : page_chain rows limit (n + d + 1) = ([], none) := by
      unfold page_chain
      rw [hc]
    rw [this] at h
    cases h
  | some c =>
    have hpage : page_chain rows limit (n + d + 1)
        = get_by_mailbox_ids_cursor rows limit (some c) := by
      unfold page_chain
      rw [hc]
    rw [hpage] at h
    have hlt := mem_page_keyLt rows limit c r2 h
    obtain ⟨k, hk, hle⟩ := chain_cursor_le rows limit d n c hc
    refine ⟨k, hk, ?_⟩
    rcases hle with hle | rfl
    · exact keyLt_trans hlt hle
    · exact hlt

/-- C7: counterexample to the claim as stated.  Two matching rows have
a NULL `internal_date` (reachable: the column is nullable and the
parser yields `None` when INTERNALDATE is absent or unparseable) and
`limit = 1`.  The first (cursorless) query matches `limit + 1 = 2`
rows and serves one, so a `(limit+1)`-th row exists, yet it returns no
`next_cursor`: the cursor is emitted only under the
`if last_item.internal_date:` guard, which fails on the NULL date.
The claimed iff `next_cursor is returned ↔ a (limit+1)-th row exists`
is therefore false, and the remaining row is unreachable by cursor
chaining. -/
theorem cursor_pagination_misses_rows_on_null_date :
    (cursor_filtered
        [{ id := 1, date := none }, { id := 2, date := none }] none).length = 2
    ∧ (get_by_mailbox_ids_cursor
        [{ id := 1, date := none }, { id := 2, date := none }] 1 none).1
      = [{ id := 2, date := none }]
    ∧ (get_by_mailbox_ids_cursor
        [{ id := 1, date := none }, { id := 2, date := none }] 1 none).2
      = none := by
  refine ⟨rfl, ?_, ?_⟩ <;> rfl

/-- C7 (amended): provided every matching row has a non-NULL
`internal_date`, the cursor-paginated listing serves at most `limit`
rows, ordered by `(internal_date DESC, id DESC)`; it emits a
`next_cursor` exactly when a `(limit+1)`-th matching row exists; the
cursor restriction keeps exactly the rows strictly below the combined
`(internal_date, id)` cursor key; and along any chain of pages obtained
by following `next_cursor`, rows of a later page are strictly smaller
in the combined key, so no FolderMessage id appears in more than one
page even when rows share an `internal_date`.  (Without the non-NULL
hypothesis the iff fails: a NULL-date row at the page boundary
suppresses the cursor, and NULL-date rows are dropped by every
cursored query.) -/
theorem cursor_pagination_correct (rows : List PageRow) (limit : ℕ)
    (hnd : (rows.map PageRow.id).Nodup) (hlim : 1 ≤ limit)
    (hdates : ∀ r ∈ rows, r.date.isSome = true) :
    (∀ cursor, (get_by_mailbox_ids_cursor rows limit cursor).1.length ≤ limit)
    ∧ (∀ cursor,
        List.Sorted pageOrd (get_by_mailbox_ids_cursor rows limit cursor).1)
    ∧ (∀ cursor, ((get_by_mailbox_ids_cursor rows limit cursor).2.isSome = true
        ↔ limit + 1 ≤ (cursor_filtered rows cursor).length))
    ∧ (∀ cd cid r, r ∈ cursor_filtered rows (some (cd, cid))
        ↔ r ∈ rows ∧ keyLt (rowKey r) (cursorKey (cd, cid)))
    ∧ (∀ i j, i < j →
        ∀ r1 ∈ (page_chain rows limit i).1,
        ∀ r2 ∈ (page_chain rows limit j).1,
          keyLt (rowKey r2) (rowKey r1) ∧ r1.id ≠ r2.id) := by
  have hlen : ∀ cursor, (sorted_rows rows cursor).length
      = (cursor_filtered rows cursor).length :=
    fun cursor => (List.perm_insertionSort pageOrd _).length_eq
  refine ⟨?_, page_sorted rows limit, ?_, ?_, ?_⟩
  · intro cursor
    by_cases h : limit < ((sorted_rows rows cursor).take (limit + 1)).length
    · obtain ⟨last, hl⟩ := served_getLast_some rows limit cursor hlim h
      rw [get_cursor_pos rows limit cursor h last hl]
      simp only [List.length_take]
      omega
    · rw [get_cursor_neg rows limit cursor h]
      simp only [List.length_take] at h ⊢
      omega
  · intro cursor
    by_cases h : limit < ((sorted_rows rows cursor).take (limit + 1)).length
    · obtain ⟨last, hl⟩ := served_getLast_some rows limit cursor hlim h
      have hmem : last ∈ rows := by
        refine page_subset rows limit cursor last ?_
        rw [get_cursor_pos rows limit cursor h last hl]
        exact getLast?_mem hl
      obtain ⟨d, hd⟩ := Option.isSome_iff_exists.mp (hdates last hmem)
      rw [get_cursor_pos rows limit cursor h last hl,
        emit_cursor_some last d hd]
      simp only [Option.isSome_some, true_iff]
      have := hlen cursor
      simp only [List.length_take] at h
      omega
    · rw [get_cursor_neg rows limit cursor h]
      simp only [Option.isSome_none, Bool.false_eq_true, false_iff]
      have := hlen cursor
      simp only [List.length_take] at h
      omega
  · intro cd cid r
    constructor
    · intro hr
      refine ⟨(List.filter_sublist _).subset hr, ?_⟩
      exact ((cursorPred_iff cd cid r).mp
        (of_decide_eq_true (List.mem_filter.mp hr).2)).2
    · intro ⟨hmem, hlt⟩
      exact List.mem_filter.mpr
        ⟨hmem, decide_eq_true
          ((cursorPred_iff cd cid r).mpr ⟨hdates r hmem, hlt⟩)⟩
  · intro i j hij r1 h1 r2 h2
    have hj : j = i + (j - i - 1) + 1 := by omega
    rw [hj] at h2
    obtain ⟨k, hk, hlt⟩ := chain_elem_lt rows limit i (j - i - 1) r2 h2
    rcases chain_is_get rows limit i with hcg | ⟨cursor, hcg⟩
    · rw [hcg] at h1
      cases h1
    · rw [hcg] at h1 hk
      obtain ⟨last, _, hkey, hall⟩ := next_cursor_last rows limit cursor k hk
      have hord := hall r1 h1
      have hlt2 : keyLt (rowKey r2) (rowKey last) := hkey ▸ hlt
      have hmain : keyLt (rowKey r2) (rowKey r1) := by
        rcases hord with hord | hord
        · exact keyLt_trans hlt2 hord
        · rw [hord]
          exact hlt2
      refine ⟨hmain, ?_⟩
      intro hid
      have hr1 : r1 ∈ rows := by
        have h1b : r1 ∈ (page_chain rows limit i).1 := by
          rw [hcg]
          exact h1
        exact chain_page_subset rows limit i r1 h1b
      have hr2 : r2 ∈ rows :=
        chain_page_subset rows limit (i + (j - i - 1) + 1) r2 h2
      have : r1 = r2 := List.inj_on_of_nodup_map hnd hr1 hr2 hid
      rw [this] at hmain
      exact keyLt_irrefl (rowKey r2) hmain

/-- Witness for `cursor_pagination_correct`: three rows with non-NULL
dates, two sharing an `internal_date`, listed with `limit = 2`. -/
theorem cursor_pagination_correct_witness :
    (([{ id := 1, date := some 100 }, { id := 2, date := some 100 },
        { id := 3, date := some 50 }] : List PageRow).map PageRow.id).Nodup
    ∧ (get_by_mailbox_ids_cursor
        [{ id := 1, date := some 100 }, { id := 2, date := some 100 },
          { id := 3, date := some 50 }] 2 none).1.length ≤ 2
    ∧ ((get_by_mailbox_ids_cursor
        [{ id := 1, date := some 100 }, { id := 2, date := some 100 },
          { id := 3, date := some 50 }] 2 none).2.isSome = true
      ↔ 2 + 1 ≤ (cursor_filtered
        [{ id := 1, date := some 100 }, { id := 2, date := some 100 },
          { id := 3, date := some 50 }] none).length) := by
  refine ⟨by decide, ?_, ?_⟩
  · exact (cursor_pagination_correct
      [{ id := 1, date := some 100 }, { id := 2, date := some 100 },
        { id := 3, date := some 50 }] 2 (by decide) (by decide)
      (by decide)).1 none
  · exact (cursor_pagination_correct
      [{ id := 1, date := some 100 }, { id := 2, date := some 100 },
        { id := 3, date := some 50 }] 2 (by decide) (by decide)
      (by decide)).2.2.1 none

end Argus
